import Mathlib

/-!
Verification of the move-generation and capture-resolution engine of the
Ethiopian checkers game in `checkers.cpp`.

The board is the C++ `Piece board[8][8]` (BOARD_HEIGHT/CELL_SIZE = 8 rows,
BOARD_WIDTH/CELL_SIZE = 8 columns), modelled as a function from (row, col)
to `Piece`.  Coordinates in the engine are C++ `int`s, modelled as `Int`;
every in-bounds access `board[y][x]` is modelled by `bget b x y`, which
returns a junk empty piece out of bounds (the C++ code always bounds-checks
before the accesses relevant to the claims).  The unbounded C++ `while`
loops walk diagonally across an 8-wide board and therefore make at most 8
iterations; they are modelled by structural recursion on a fuel argument
instantiated with 16, which is never exhausted on the reachable inputs.
-/

set_option maxHeartbeats 1000000

namespace Checkers

/-- C++ `enum PieceType { NONE, REGULAR, KING }`. -/
inductive PieceType where
  | NONE
  | REGULAR
  | KING
deriving DecidableEq, Repr

/-- C++ `enum Player { PLAYER1, PLAYER2 }`. -/
inductive Player where
  | PLAYER1
  | PLAYER2
deriving DecidableEq, Repr

/-- C++ `struct Piece { PieceType type; Player player; bool isKing; }`. -/
structure Piece where
  type : PieceType
  player : Player
  isKing : Bool
deriving DecidableEq, Repr

/-- C++ `struct Position { int x; int y; }`. -/
structure Position where
  x : Int
  y : Int
deriving DecidableEq, Repr

/-- The 8x8 board `Piece board[8][8]`, indexed as `board row col`. -/
def Board := Fin 8 → Fin 8 → Piece

/-- The value an out-of-range read returns in the model.  The C++ code never
performs an out-of-range read on the paths modelled here. -/
def emptyPiece : Piece := ⟨PieceType.NONE, Player.PLAYER1, false⟩

/-- Bounds test `x >= 0 && x < BOARD_WIDTH/CELL_SIZE && y >= 0 && y < 8`,
as written at the various guard sites of the C++ code. -/
def inBounds (x y : Int) : Bool :=
  decide (0 ≤ x) && decide (x < 8) && decide (0 ≤ y) && decide (y < 8)

/-- Read `board[y][x]` (column `x`, row `y`). -/
def bget (b : Board) (x y : Int) : Piece :=
  if h : 0 ≤ x ∧ x < 8 ∧ 0 ≤ y ∧ y < 8 then
    b ⟨y.toNat, by omega⟩ ⟨x.toNat, by omega⟩
  else emptyPiece

/-- Write `board[y][x] = p`; a write outside the board changes nothing
(the modelled C++ paths only write in bounds). -/
def bset (b : Board) (x y : Int) (p : Piece) : Board :=
  fun r c => if (r.val : Int) = y ∧ (c.val : Int) = x then p else b r c

/-- C++ `SwitchTurn`: the player alternation. -/
def otherPlayer : Player → Player
  | Player.PLAYER1 => Player.PLAYER2
  | Player.PLAYER2 => Player.PLAYER1

/-- C++ constant `MAX_VALID_MOVES = 12`. -/
def MAX_VALID_MOVES : Nat := 12

/-- The guarded append `if (validMoveCount < MAX_VALID_MOVES) { validMoves[validMoveCount++] = p; }`
used at every candidate-insertion site of `FindValidMoves`. -/
def push (l : List Position) (p : Position) : List Position :=
  if l.length < MAX_VALID_MOVES then l ++ [p] else l

/-- The king scan of `FindValidMoves` (checkers.cpp lines 497-545) for one
direction `(dx, dy)`.  State: the cell `(nx, ny)` about to be examined, the
`opponentPieceFound` flag, the candidate list so far and the
`captureAvailable` flag.  The C++ `while (true)` loop is driven by a fuel
argument; 16 units are more than the at most 8 iterations any direction can
take before running off the board. -/
def kingScanDir (b : Board) (pl : Player) (isAfterCapture : Bool) (dx dy : Int) :
    Nat → Int → Int → Bool → List Position × Bool → List Position × Bool
  | 0, _, _, _, st => st
  | fuel+1, nx, ny, oppFound, (acc, cap) =>
    if inBounds nx ny = false then (acc, cap)
    else if (bget b nx ny).type == PieceType.NONE then
      if oppFound then
        if acc.length < MAX_VALID_MOVES then (acc ++ [⟨nx, ny⟩], true) else (acc, cap)
      else if isAfterCapture = false then
        kingScanDir b pl isAfterCapture dx dy fuel (nx + dx) (ny + dy) oppFound
          (push acc ⟨nx, ny⟩, cap)
      else
        kingScanDir b pl isAfterCapture dx dy fuel (nx + dx) (ny + dy) oppFound (acc, cap)
    else if (bget b nx ny).player != pl then
      if oppFound = false then
        kingScanDir b pl isAfterCapture dx dy fuel (nx + dx) (ny + dy) true (acc, cap)
      else (acc, cap)
    else (acc, cap)

/-- The four king directions, in the order the C++ code fills `directions`. -/
def kingDirs : List (Int × Int) := [(1, 1), (-1, 1), (1, -1), (-1, -1)]

/-- The king branch of `FindValidMoves` (lines 487-550): scan all four
directions, then `if (isAfterCapture && !captureAvailable) validMoveCount = 0`. -/
def kingMoves (b : Board) (pl : Player) (isAfterCapture : Bool) (x y : Int) : List Position :=
  let st := kingDirs.foldl
    (fun st d => kingScanDir b pl isAfterCapture d.1 d.2 16 (x + d.1) (y + d.2) false st)
    ([], false)
  if isAfterCapture && !st.2 then [] else st.1

/-- One direction of the regular-piece branch of `FindValidMoves`
(lines 565-597): the adjacent simple move (only when not after a capture)
followed by the two-step jump capture. -/
def manDir (b : Board) (pl : Player) (isAfterCapture : Bool) (x y dx dy : Int)
    (acc : List Position) : List Position :=
  let nx := x + dx
  let ny := y + dy
  if inBounds nx ny then
    let acc1 :=
      if (bget b nx ny).type == PieceType.NONE && !isAfterCapture then push acc ⟨nx, ny⟩
      else acc
    let cx := x + 2 * dx
    let cy := y + 2 * dy
    if inBounds cx cy && ((bget b cx cy).type == PieceType.NONE) &&
        ((bget b nx ny).type != PieceType.NONE) && ((bget b nx ny).player != pl) then
      push acc1 ⟨cx, cy⟩
    else acc1
  else acc

/-- The regular-piece branch of `FindValidMoves` (lines 552-598): the two
forward directions of the piece's player, `(1, fdy)` then `(-1, fdy)`. -/
def manMoves (b : Board) (pl : Player) (isAfterCapture : Bool) (x y : Int) : List Position :=
  let fdy : Int := if pl == Player.PLAYER1 then 1 else -1
  manDir b pl isAfterCapture x y (-1) fdy (manDir b pl isAfterCapture x y 1 fdy [])

/-- C++ `FindValidMoves` (lines 480-599).  `validMoveCount` is reset to 0 on
entry and the array is refilled, so the function is modelled as returning
the fresh candidate list (the new `validMoveCount` is its length); it reads
only the board and the source cell, never the previous list.  Note the C++
code dispatches on `piece.isKing` and uses `piece.player` without checking
`piece.type`. -/
def FindValidMoves (b : Board) (x y : Int) (isAfterCapture : Bool) : List Position :=
  let piece := bget b x y
  if piece.isKing then kingMoves b piece.player isAfterCapture x y
  else manMoves b piece.player isAfterCapture x y

/-- C++ `struct GameState`, restricted to the fields the engine logic reads.
`validMoves`/`validMoveCount` are modelled as the list of the first
`validMoveCount` entries, which is the only part any code reads. -/
structure GameState where
  board : Board
  currentPlayer : Player
  player1Score : Int
  player2Score : Int
  pieceSelected : Bool
  selectedX : Int
  selectedY : Int
  validMoves : List Position
  isCapturing : Bool

/-- C++ `IsValidMove` (lines 468-477): membership of the destination in the
current candidate list (the start coordinates are ignored by the source). -/
def IsValidMove (gs : GameState) (endX endY : Int) : Bool :=
  gs.validMoves.any (fun m => m.x == endX && m.y == endY)

/-- C++ `SwitchTurn` (lines 463-465). -/
def SwitchTurn (gs : GameState) : GameState :=
  { gs with currentPlayer := otherPlayer gs.currentPlayer }

/-- The king long-range capture walk of `HandleInput` (lines 344-360): walk
from the square after the source toward the destination `(x, y)`, clear the
first opponent piece found (type field only) and stop; report whether a
piece was captured.  Fuel as in `kingScanDir`. -/
def kingCaptureScan (b : Board) (pl : Player) (x y dx dy : Int) :
    Nat → Int → Int → Board × Bool
  | 0, _, _ => (b, false)
  | fuel+1, cx, cy =>
    if cx ≠ x ∧ cy ≠ y then
      if (bget b cx cy).type ≠ PieceType.NONE ∧ (bget b cx cy).player ≠ pl then
        (bset b cx cy ({ bget b cx cy with type := PieceType.NONE }), true)
      else kingCaptureScan b pl x y dx dy fuel (cx + dx) (cy + dy)
    else (b, false)

/-- The direction pairs of the post-capture lookahead of `HandleInput`
(lines 371-389), in loop order: `directionX` = -1 then 1, `directionY` = 1
then -1. -/
def additionalCaptureDirs : List (Int × Int) := [(-1, 1), (-1, -1), (1, 1), (1, -1)]

/-- The `additionalCapturePossible` lookahead of `HandleInput` (lines
366-393): two-step landings from the destination with an adjacent cell whose
`player` differs from the current player and whose `type` is not NONE. -/
def additionalCapturePossible (b : Board) (pl : Player) (x y : Int) : Bool :=
  additionalCaptureDirs.any (fun d =>
    inBounds (x + d.1 * 2) (y + d.2 * 2) &&
    ((bget b (x + d.1 * 2) (y + d.2 * 2)).type == PieceType.NONE) &&
    ((bget b (x + d.1) (y + d.2)).player != pl) &&
    ((bget b (x + d.1) (y + d.2)).type != PieceType.NONE))

/-- C++ `PromoteToKing` (lines 604-612): crowns `board[y][x]` whenever the
current player's back row is `y` (row 7 for PLAYER1, row 0 for PLAYER2),
without inspecting the cell's contents. -/
def PromoteToKing (gs : GameState) (x y : Int) : GameState :=
  let crowned : Piece := { bget gs.board x y with isKing := true, type := PieceType.KING }
  if gs.currentPlayer == Player.PLAYER1 && y == 7 then
    { gs with board := bset gs.board x y crowned }
  else if gs.currentPlayer == Player.PLAYER2 && y == 0 then
    { gs with board := bset gs.board x y crowned }
  else gs

/-- The capture-handling phase of `HandleInput`'s move application (lines
327-411), for destination `(x, y)` of the selected piece.  Result: the
board after any removal, the `scored` flag (a point was added for the
current player), the final value of the local `isCapture` (after the king
downgrades: no piece jumped, or the fixed two-offset lookahead found no
further capture), and the new `isCapturing` field (set to `true` exactly
when the destination is non-adjacent, kept otherwise). -/
def capturePhase (gs : GameState) (x y : Int) : Board × Bool × Bool × Bool :=
  let sx := gs.selectedX
  let sy := gs.selectedY
  let movingPiece := bget gs.board sx sy
  let isCapture0 := decide (1 < (sx - x).natAbs) && decide (1 < (sy - y).natAbs)
  if isCapture0 then
    if movingPiece.isKing then
      let dx : Int := if x > sx then 1 else -1
      let dy : Int := if y > sy then 1 else -1
      let scan := kingCaptureScan gs.board gs.currentPlayer x y dx dy 16 (sx + dx) (sy + dy)
      if scan.2 = false then (scan.1, false, false, true)
      else (scan.1, true, additionalCapturePossible scan.1 gs.currentPlayer x y, true)
    else
      let capX := Int.tdiv (sx + x) 2
      let capY := Int.tdiv (sy + y) 2
      (bset gs.board capX capY ({ bget gs.board capX capY with type := PieceType.NONE }),
        true, true, true)
  else (gs.board, false, false, gs.isCapturing)

/-- The piece move of `HandleInput` (lines 413-415):
`destinationPiece = movingPiece; movingPiece.type = NONE` — the destination
receives the whole source struct, the source keeps its `player` and
`isKing` fields and only its `type` is cleared. -/
def movedBoard (b1 : Board) (sx sy x y : Int) : Board :=
  let b2 := bset b1 x y (bget b1 sx sy)
  bset b2 sx sy ({ bget b2 sx sy with type := PieceType.NONE })

/-- The move-application body of `HandleInput` (lines 322-443), entered when
`IsValidMove` accepted destination `(x, y)` for the selected piece.  It
mirrors the source order: capture handling (`capturePhase`), score update,
the piece move (`movedBoard`), `wasKing` snapshot (taken from the source
cell after its `type` was cleared, so it is the original `isKing` field),
`PromoteToKing`, the forced turn switch on promotion, and otherwise the
`afterCapture` regeneration deciding between chain continuation and end of
turn. -/
def applyMove (gs : GameState) (x y : Int) : GameState :=
  let sx := gs.selectedX
  let sy := gs.selectedY
  let res := capturePhase gs x y
  let b1 := res.1
  let scored := res.2.1
  let isCapture := res.2.2.1
  let capturing1 := res.2.2.2
  let p1s := if scored && gs.currentPlayer == Player.PLAYER1 then gs.player1Score + 1
             else gs.player1Score
  let p2s := if scored && gs.currentPlayer == Player.PLAYER2 then gs.player2Score + 1
             else gs.player2Score
  let b3 := movedBoard b1 sx sy x y
  let wasKing := (bget b3 sx sy).isKing
  let gs1 : GameState :=
    { gs with board := b3, player1Score := p1s, player2Score := p2s, isCapturing := capturing1 }
  let gs2 := PromoteToKing gs1 x y
  if !wasKing && (bget gs2.board x y).isKing then
    SwitchTurn { gs2 with pieceSelected := false, validMoves := [], isCapturing := false }
  else
    let vm := FindValidMoves gs2.board x y true
    if isCapture && decide (0 < vm.length) then
      { gs2 with pieceSelected := true, selectedX := x, selectedY := y, validMoves := vm }
    else
      SwitchTurn { gs2 with pieceSelected := false, validMoves := [], isCapturing := false }

/-- The mouse-click dispatch of `HandleInput` (lines 300-456), given the
clicked cell `(x, y)`.  Selection requires a piece of the current player and
no ongoing capture chain; otherwise the click is validated against the
candidate list and either applied, ignored (during a chain), or causes
deselection. -/
def HandleInput (gs : GameState) (x y : Int) : GameState :=
  if gs.pieceSelected = false then
    if gs.isCapturing = false then
      if inBounds x y && ((bget gs.board x y).type != PieceType.NONE) &&
          ((bget gs.board x y).player == gs.currentPlayer) then
        { gs with pieceSelected := true, selectedX := x, selectedY := y,
                  validMoves := FindValidMoves gs.board x y false }
      else gs
    else gs
  else
    if !gs.isCapturing && ((bget gs.board x y).type != PieceType.NONE) &&
        ((bget gs.board x y).player == gs.currentPlayer) then
      { gs with pieceSelected := true, selectedX := x, selectedY := y,
                validMoves := FindValidMoves gs.board x y false }
    else if IsValidMove gs x y then
      applyMove gs x y
    else if gs.isCapturing then gs
    else { gs with pieceSelected := false, validMoves := [] }

/-- All 64 cells of the board as (column, row) integer pairs. -/
def allCellsI : List (Int × Int) :=
  (List.range 8).flatMap
    (fun y : Nat => (List.range 8).map (fun x : Nat => ((x : Int), (y : Int))))

/-- Total number of occupied cells (`type != NONE`). -/
def countPieces (b : Board) : Nat :=
  allCellsI.countP (fun c => (bget b c.1 c.2).type != PieceType.NONE)

/-- Number of pieces owned by `pl`, as counted by `CheckGameOver`. -/
def countPlayer (b : Board) (pl : Player) : Nat :=
  allCellsI.countP (fun c =>
    ((bget b c.1 c.2).type != PieceType.NONE) && ((bget b c.1 c.2).player == pl))

/-- Score component of the state for a given player. -/
def scoreOf (gs : GameState) : Player → Int
  | Player.PLAYER1 => gs.player1Score
  | Player.PLAYER2 => gs.player2Score

/-- The per-piece mobility test `CheckGameOver` performs for a PLAYER1 piece
at `(x, y)` (checkers.cpp lines 635-665), transcribed conjunct for
conjunct: forward man moves, forward man captures (note the source tests
only the `player` field of the jumped cell, not its `type`), and for cells
of type KING the four-direction move and capture checks. -/
def p1HasMovesAt (b : Board) (x y : Int) : Bool :=
  (decide (y+1 < 8) && decide (x+1 < 8) && ((bget b (x+1) (y+1)).type == PieceType.NONE) ||
   decide (y+1 < 8) && decide (0 ≤ x-1) && ((bget b (x-1) (y+1)).type == PieceType.NONE)) ||
  (decide (y+2 < 8) && decide (x+2 < 8) && ((bget b (x+1) (y+1)).player == Player.PLAYER2) &&
     ((bget b (x+2) (y+2)).type == PieceType.NONE) ||
   decide (y+2 < 8) && decide (0 ≤ x-2) && ((bget b (x-1) (y+1)).player == Player.PLAYER2) &&
     ((bget b (x-2) (y+2)).type == PieceType.NONE)) ||
  (if (bget b x y).type == PieceType.KING then
    (decide (y+1 < 8) && decide (x+1 < 8) && ((bget b (x+1) (y+1)).type == PieceType.NONE) ||
     decide (y+1 < 8) && decide (0 ≤ x-1) && ((bget b (x-1) (y+1)).type == PieceType.NONE) ||
     decide (0 ≤ y-1) && decide (x+1 < 8) && ((bget b (x+1) (y-1)).type == PieceType.NONE) ||
     decide (0 ≤ y-1) && decide (0 ≤ x-1) && ((bget b (x-1) (y-1)).type == PieceType.NONE)) ||
    (decide (y+2 < 8) && decide (x+2 < 8) && ((bget b (x+1) (y+1)).player == Player.PLAYER2) &&
       ((bget b (x+2) (y+2)).type == PieceType.NONE) ||
     decide (y+2 < 8) && decide (0 ≤ x-2) && ((bget b (x-1) (y+1)).player == Player.PLAYER2) &&
       ((bget b (x-2) (y+2)).type == PieceType.NONE) ||
     decide (0 ≤ y-2) && decide (x+2 < 8) && ((bget b (x+1) (y-1)).player == Player.PLAYER2) &&
       ((bget b (x+2) (y-2)).type == PieceType.NONE) ||
     decide (0 ≤ y-2) && decide (0 ≤ x-2) && ((bget b (x-1) (y-1)).player == Player.PLAYER2) &&
       ((bget b (x-2) (y-2)).type == PieceType.NONE))
   else false)

/-- The per-piece mobility test `CheckGameOver` performs for a PLAYER2 piece
at `(x, y)` (checkers.cpp lines 669-699). -/
def p2HasMovesAt (b : Board) (x y : Int) : Bool :=
  (decide (0 ≤ y-1) && decide (x+1 < 8) && ((bget b (x+1) (y-1)).type == PieceType.NONE) ||
   decide (0 ≤ y-1) && decide (0 ≤ x-1) && ((bget b (x-1) (y-1)).type == PieceType.NONE)) ||
  (decide (0 ≤ y-2) && decide (x+2 < 8) && ((bget b (x+1) (y-1)).player == Player.PLAYER1) &&
     ((bget b (x+2) (y-2)).type == PieceType.NONE) ||
   decide (0 ≤ y-2) && decide (0 ≤ x-2) && ((bget b (x-1) (y-1)).player == Player.PLAYER1) &&
     ((bget b (x-2) (y-2)).type == PieceType.NONE)) ||
  (if (bget b x y).type == PieceType.KING then
    (decide (y+1 < 8) && decide (x+1 < 8) && ((bget b (x+1) (y+1)).type == PieceType.NONE) ||
     decide (y+1 < 8) && decide (0 ≤ x-1) && ((bget b (x-1) (y+1)).type == PieceType.NONE) ||
     decide (0 ≤ y-1) && decide (x+1 < 8) && ((bget b (x+1) (y-1)).type == PieceType.NONE) ||
     decide (0 ≤ y-1) && decide (0 ≤ x-1) && ((bget b (x-1) (y-1)).type == PieceType.NONE)) ||
    (decide (y+2 < 8) && decide (x+2 < 8) && ((bget b (x+1) (y+1)).player == Player.PLAYER1) &&
       ((bget b (x+2) (y+2)).type == PieceType.NONE) ||
     decide (y+2 < 8) && decide (0 ≤ x-2) && ((bget b (x-1) (y+1)).player == Player.PLAYER1) &&
       ((bget b (x-2) (y+2)).type == PieceType.NONE) ||
     decide (0 ≤ y-2) && decide (x+2 < 8) && ((bget b (x+1) (y-1)).player == Player.PLAYER1) &&
       ((bget b (x+2) (y-2)).type == PieceType.NONE) ||
     decide (0 ≤ y-2) && decide (0 ≤ x-2) && ((bget b (x-1) (y-1)).player == Player.PLAYER1) &&
       ((bget b (x-2) (y-2)).type == PieceType.NONE))
   else false)

/-- C++ `CheckGameOver` (lines 617-725).  The single board pass counting
pieces and latching the two mobility flags is modelled by the equivalent
counts and existential scans; the result encodes `false` as `none` and
`true` with winner `w` as `some w`. -/
def CheckGameOver (b : Board) (current : Player) : Option Player :=
  let p1 := countPlayer b Player.PLAYER1
  let p2 := countPlayer b Player.PLAYER2
  let h1 := allCellsI.any (fun c =>
    ((bget b c.1 c.2).type != PieceType.NONE) && ((bget b c.1 c.2).player == Player.PLAYER1) &&
    p1HasMovesAt b c.1 c.2)
  let h2 := allCellsI.any (fun c =>
    ((bget b c.1 c.2).type != PieceType.NONE) && ((bget b c.1 c.2).player == Player.PLAYER2) &&
    p2HasMovesAt b c.1 c.2)
  if p1 == 0 then some Player.PLAYER2
  else if p2 == 0 then some Player.PLAYER1
  else if (current == Player.PLAYER1) && !h1 then some Player.PLAYER2
  else if (current == Player.PLAYER2) && !h2 then some Player.PLAYER1
  else none

/-- Spec-side notion (for the C3 refinement comparison): the cell holds an
opponent piece of `pl`: occupied and owned by the other player. -/
def specOpponentAt (b : Board) (pl : Player) (x y : Int) : Bool :=
  ((bget b x y).type != PieceType.NONE) && ((bget b x y).player != pl)

/-- Spec-side per-piece mobility, following the claim's words: a man has an
adjacent forward move or a forward jump-capture (over an opponent piece,
landing in bounds on an empty cell); a piece of rank king additionally has
moves and jump-captures in all four diagonal directions. -/
def specPieceHasMove (b : Board) (pl : Player) (x y : Int) : Bool :=
  let fdy : Int := if pl == Player.PLAYER1 then 1 else -1
  ((inBounds (x+1) (y+fdy) && ((bget b (x+1) (y+fdy)).type == PieceType.NONE)) ||
   (inBounds (x-1) (y+fdy) && ((bget b (x-1) (y+fdy)).type == PieceType.NONE)) ||
   (inBounds (x+2) (y+2*fdy) && specOpponentAt b pl (x+1) (y+fdy) &&
     ((bget b (x+2) (y+2*fdy)).type == PieceType.NONE)) ||
   (inBounds (x-2) (y+2*fdy) && specOpponentAt b pl (x-1) (y+fdy) &&
     ((bget b (x-2) (y+2*fdy)).type == PieceType.NONE))) ||
  (if (bget b x y).type == PieceType.KING then
    ((inBounds (x+1) (y+1) && ((bget b (x+1) (y+1)).type == PieceType.NONE)) ||
     (inBounds (x-1) (y+1) && ((bget b (x-1) (y+1)).type == PieceType.NONE)) ||
     (inBounds (x+1) (y-1) && ((bget b (x+1) (y-1)).type == PieceType.NONE)) ||
     (inBounds (x-1) (y-1) && ((bget b (x-1) (y-1)).type == PieceType.NONE))) ||
    ((inBounds (x+2) (y+2) && specOpponentAt b pl (x+1) (y+1) &&
       ((bget b (x+2) (y+2)).type == PieceType.NONE)) ||
     (inBounds (x-2) (y+2) && specOpponentAt b pl (x-1) (y+1) &&
       ((bget b (x-2) (y+2)).type == PieceType.NONE)) ||
     (inBounds (x+2) (y-2) && specOpponentAt b pl (x+1) (y-1) &&
       ((bget b (x+2) (y-2)).type == PieceType.NONE)) ||
     (inBounds (x-2) (y-2) && specOpponentAt b pl (x-1) (y-1) &&
       ((bget b (x-2) (y-2)).type == PieceType.NONE)))
   else false)

/-- Spec-side terminal evaluation, following the claim's words: elimination
is checked before immobility; if the player to move (who, once the
elimination checks have passed, owns at least one piece) has no piece with
any legal move or capture, the opponent wins; otherwise the game is ongoing.
When both players own zero pieces the spec's "a player owns zero pieces"
clause is instantiated for the first player, matching the source's check
order. -/
def specEvaluate (b : Board) (current : Player) : Option Player :=
  if countPlayer b Player.PLAYER1 == 0 then some Player.PLAYER2
  else if countPlayer b Player.PLAYER2 == 0 then some Player.PLAYER1
  else if !(allCellsI.any (fun c =>
      ((bget b c.1 c.2).type != PieceType.NONE) && ((bget b c.1 c.2).player == current) &&
      specPieceHasMove b current c.1 c.2)) then some (otherPlayer current)
  else none

/-- The cells strictly between a diagonal move's source `(sx, sy)` and its
destination `(px, py)`, in scan order. -/
def betweens (sx sy px py : Int) : List (Int × Int) :=
  let m := (px - sx).natAbs
  let dx : Int := if px > sx then 1 else -1
  let dy : Int := if py > sy then 1 else -1
  (List.range (m - 1)).map (fun i : Nat => (sx + ((i : Int) + 1) * dx, sy + ((i : Int) + 1) * dy))

/-- Number of occupied cells strictly between source and destination of a
diagonal move: the pieces a capture jumps over. -/
def jumpedCount (b : Board) (sx sy px py : Int) : Nat :=
  (betweens sx sy px py).countP (fun c => (bget b c.1 c.2).type != PieceType.NONE)

/-- The C4 claim's dichotomy for applying a candidate move: either the move
jumps exactly one piece — an opponent piece — the total piece count drops by
exactly one and the mover's score rises by exactly one (the opponent's score
unchanged), or the move jumps nothing and both the piece count and the
scores are unchanged. -/
def captureOutcome (gs : GameState) (px py : Int) : Prop :=
  (jumpedCount gs.board gs.selectedX gs.selectedY px py = 1 ∧
    (∀ q ∈ betweens gs.selectedX gs.selectedY px py,
      (bget gs.board q.1 q.2).type ≠ PieceType.NONE →
      (bget gs.board q.1 q.2).player = otherPlayer gs.currentPlayer) ∧
    countPieces (applyMove gs px py).board + 1 = countPieces gs.board ∧
    scoreOf (applyMove gs px py) gs.currentPlayer = scoreOf gs gs.currentPlayer + 1 ∧
    scoreOf (applyMove gs px py) (otherPlayer gs.currentPlayer) =
      scoreOf gs (otherPlayer gs.currentPlayer)) ∨
  (jumpedCount gs.board gs.selectedX gs.selectedY px py = 0 ∧
    countPieces (applyMove gs px py).board = countPieces gs.board ∧
    scoreOf (applyMove gs px py) gs.currentPlayer = scoreOf gs gs.currentPlayer ∧
    scoreOf (applyMove gs px py) (otherPlayer gs.currentPlayer) =
      scoreOf gs (otherPlayer gs.currentPlayer))

/-- Analysis predicate: the cells `1..m` steps from `(x, y)` along `(dx, dy)`
are all in bounds and empty — the shape of a king's simple-move ray. -/
def kingSimpleRay (b : Board) (x y dx dy : Int) (m : Nat) : Prop :=
  ∀ j : Nat, 1 ≤ j → j ≤ m → inBounds (x + (j : Int)*dx) (y + (j : Int)*dy) = true ∧
    (bget b (x + (j : Int)*dx) (y + (j : Int)*dy)).type = PieceType.NONE

/-- Analysis predicate: along `(dx, dy)` from `(x, y)` there are `e` empty
in-bounds cells, then one opponent piece of `pl`, then an empty in-bounds
landing cell — the shape of a king's capture ray, with landing at step
`e + 2`. -/
def kingCaptureRay (b : Board) (pl : Player) (x y dx dy : Int) (e : Nat) : Prop :=
  (∀ j : Nat, 1 ≤ j → j ≤ e → inBounds (x + (j : Int)*dx) (y + (j : Int)*dy) = true ∧
    (bget b (x + (j : Int)*dx) (y + (j : Int)*dy)).type = PieceType.NONE) ∧
  inBounds (x + ((e : Int)+1)*dx) (y + ((e : Int)+1)*dy) = true ∧
  (bget b (x + ((e : Int)+1)*dx) (y + ((e : Int)+1)*dy)).type ≠ PieceType.NONE ∧
  (bget b (x + ((e : Int)+1)*dx) (y + ((e : Int)+1)*dy)).player ≠ pl ∧
  inBounds (x + ((e : Int)+2)*dx) (y + ((e : Int)+2)*dy) = true ∧
  (bget b (x + ((e : Int)+2)*dx) (y + ((e : Int)+2)*dy)).type = PieceType.NONE

/-- The all-empty board (every cell `type = NONE`, with the residual fields
`player = PLAYER1`, `isKing = false` that `InitializeGame` leaves in empty
cells). -/
def emptyBoard : Board := fun _ _ => emptyPiece

/-- The C1 scenario board: a PLAYER1 king at (0,0), PLAYER2 men at (2,2) and
(4,4), every other cell empty — in particular (1,1), (3,3) and (5,5). -/
def c1Board : Board := fun r c =>
  if r.val = 0 ∧ c.val = 0 then ⟨PieceType.KING, Player.PLAYER1, true⟩
  else if (r.val = 2 ∧ c.val = 2) ∨ (r.val = 4 ∧ c.val = 4) then
    ⟨PieceType.REGULAR, Player.PLAYER2, false⟩
  else emptyPiece

/-- A game state over the all-empty board with PLAYER1 to move and nothing
selected. -/
def gsEmpty : GameState :=
  { board := emptyBoard, currentPlayer := Player.PLAYER1, player1Score := 0, player2Score := 0,
    pieceSelected := false, selectedX := -1, selectedY := -1, validMoves := [],
    isCapturing := false }

/-- Board with a PLAYER1 man at (2,2) and a PLAYER2 man at (3,3); (4,4) is
empty, so (2,2) has the jump-capture landing (4,4). -/
def manCapBoard : Board := fun r c =>
  if r.val = 2 ∧ c.val = 2 then ⟨PieceType.REGULAR, Player.PLAYER1, false⟩
  else if r.val = 3 ∧ c.val = 3 then ⟨PieceType.REGULAR, Player.PLAYER2, false⟩
  else emptyPiece

/-- State for the man-capture scenario: the man at (2,2) is selected with
its candidates computed. -/
def gsManCap : GameState :=
  { board := manCapBoard, currentPlayer := Player.PLAYER1, player1Score := 0, player2Score := 0,
    pieceSelected := true, selectedX := 2, selectedY := 2,
    validMoves := FindValidMoves manCapBoard 2 2 false, isCapturing := false }

/-- Board with a PLAYER1 man at (2,6) one diagonal step away from the
promotion row 7; (3,7) is empty. -/
def promoBoard : Board := fun r c =>
  if r.val = 6 ∧ c.val = 2 then ⟨PieceType.REGULAR, Player.PLAYER1, false⟩
  else emptyPiece

/-- State for the promotion scenario: the man at (2,6) is selected. -/
def gsPromo : GameState :=
  { board := promoBoard, currentPlayer := Player.PLAYER1, player1Score := 0, player2Score := 0,
    pieceSelected := true, selectedX := 2, selectedY := 6,
    validMoves := FindValidMoves promoBoard 2 6 false, isCapturing := false }

/-- Board for a capture chain in progress: a PLAYER1 man at (4,4) that has
just captured, and a further PLAYER2 man at (5,5) with (6,6) empty. -/
def chainBoard : Board := fun r c =>
  if r.val = 4 ∧ c.val = 4 then ⟨PieceType.REGULAR, Player.PLAYER1, false⟩
  else if r.val = 5 ∧ c.val = 5 then ⟨PieceType.REGULAR, Player.PLAYER2, false⟩
  else emptyPiece

/-- State in the middle of a capture chain: the man at (4,4) stays selected,
`isCapturing` is set, and the candidate list was regenerated with
`afterCapture = true`. -/
def gsChain : GameState :=
  { board := chainBoard, currentPlayer := Player.PLAYER1, player1Score := 1, player2Score := 0,
    pieceSelected := true, selectedX := 4, selectedY := 4,
    validMoves := FindValidMoves chainBoard 4 4 true, isCapturing := true }

/-! ### Basic board lemmas -/

lemma inBounds_iff {x y : Int} : inBounds x y = true ↔ 0 ≤ x ∧ x < 8 ∧ 0 ≤ y ∧ y < 8 := by
  simp [inBounds, and_assoc]

lemma bget_oob (b : Board) {x y : Int} (h : ¬(0 ≤ x ∧ x < 8 ∧ 0 ≤ y ∧ y < 8)) :
    bget b x y = emptyPiece := by
  simp [bget, h]

lemma bget_bset_same (b : Board) {x y : Int} (p : Piece)
    (h : 0 ≤ x ∧ x < 8 ∧ 0 ≤ y ∧ y < 8) :
    bget (bset b x y p) x y = p := by
  obtain ⟨h1, h2, h3, h4⟩ := h
  simp only [bget, bset, dif_pos (by omega : 0 ≤ x ∧ x < 8 ∧ 0 ≤ y ∧ y < 8)]
  rw [if_pos]
  constructor <;> simp <;> omega

lemma bget_bset_ne (b : Board) {x y x' y' : Int} (p : Piece)
    (h : ¬(x' = x ∧ y' = y)) :
    bget (bset b x y p) x' y' = bget b x' y' := by
  by_cases hb : 0 ≤ x' ∧ x' < 8 ∧ 0 ≤ y' ∧ y' < 8
  · simp only [bget, bset, dif_pos hb]
    rw [if_neg]
    intro hc
    obtain ⟨hcy, hcx⟩ := hc
    apply h
    constructor
    · rw [← hcx]; simp [Int.toNat_of_nonneg hb.1]
    · rw [← hcy]; simp [Int.toNat_of_nonneg hb.2.2.1]
  · rw [bget_oob _ hb, bget_oob _ hb]

lemma bset_bset_same (b : Board) (x y : Int) (p q : Piece) :
    bset (bset b x y p) x y q = bset b x y q := by
  funext r c
  simp only [bset]
  by_cases h : (r.val : Int) = y ∧ (c.val : Int) = x <;> simp [h]

lemma mem_allCellsI {x y : Int} :
    (x, y) ∈ allCellsI ↔ 0 ≤ x ∧ x < 8 ∧ 0 ≤ y ∧ y < 8 := by
  constructor
  · intro h
    unfold allCellsI at h
    obtain ⟨y0, hy0, hmem⟩ := List.mem_flatMap.mp h
    obtain ⟨x0, hx0, heq⟩ := List.mem_map.mp hmem
    have hx : (x0 : Int) = x := congrArg Prod.fst heq
    have hy : (y0 : Int) = y := congrArg Prod.snd heq
    rw [List.mem_range] at hy0 hx0
    omega
  · rintro ⟨h1, h2, h3, h4⟩
    refine List.mem_flatMap.mpr ⟨y.toNat, List.mem_range.mpr (by omega), ?_⟩
    refine List.mem_map.mpr ⟨x.toNat, List.mem_range.mpr (by omega), ?_⟩
    rw [Int.toNat_of_nonneg h1, Int.toNat_of_nonneg h3]

lemma allCellsI_nodup : allCellsI.Nodup := by decide

lemma countP_congr_single {α : Type} (l : List α) (a : α) (f g : α → Bool)
    (hnd : l.Nodup) (ha : a ∈ l) (hfg : ∀ x ∈ l, x ≠ a → f x = g x) :
    l.countP g + (if f a then 1 else 0) = l.countP f + (if g a then 1 else 0) := by
  induction l with
  | nil => cases ha
  | cons x xs ih =>
    rw [List.nodup_cons] at hnd
    rcases List.mem_cons.mp ha with hxa | haxs
    · subst hxa
      have hsame : xs.countP f = xs.countP g := by
        apply List.countP_congr
        intro z hz
        have := hfg z (List.mem_cons_of_mem _ hz) (fun hza => hnd.1 (hza ▸ hz))
        simp [this]
      rw [List.countP_cons, List.countP_cons, hsame]
      omega
    · have hxa : x ≠ a := fun h => hnd.1 (h ▸ haxs)
      have hx := hfg x (List.mem_cons_self _ _) hxa
      have hrec := ih hnd.2 haxs (fun z hz hza => hfg z (List.mem_cons_of_mem _ hz) hza)
      rw [List.countP_cons, List.countP_cons, hx]
      omega

lemma countPieces_bset (b : Board) {x y : Int} (p : Piece)
    (h : 0 ≤ x ∧ x < 8 ∧ 0 ≤ y ∧ y < 8) :
    countPieces (bset b x y p) +
        (if (bget b x y).type != PieceType.NONE then 1 else 0) =
      countPieces b + (if p.type != PieceType.NONE then 1 else 0) := by
  unfold countPieces
  have key := countP_congr_single allCellsI (x, y)
    (fun c => (bget b c.1 c.2).type != PieceType.NONE)
    (fun c => (bget (bset b x y p) c.1 c.2).type != PieceType.NONE)
    allCellsI_nodup (mem_allCellsI.mpr h)
    (fun z hz hza => by
      have : ¬(z.1 = x ∧ z.2 = y) := by
        intro hc
        exact hza (Prod.ext hc.1 hc.2)
      simp [bget_bset_ne b p this])
  simp only [bget_bset_same b p h] at key
  exact key

lemma countPieces_clear (b : Board) {x y : Int}
    (h : 0 ≤ x ∧ x < 8 ∧ 0 ≤ y ∧ y < 8) (hocc : (bget b x y).type ≠ PieceType.NONE) :
    countPieces (bset b x y ({ bget b x y with type := PieceType.NONE })) + 1 =
      countPieces b := by
  have key := countPieces_bset b ({ bget b x y with type := PieceType.NONE }) h
  simp only [bne_iff_ne, ne_eq] at key
  rw [if_pos hocc] at key
  simpa using key

lemma countPieces_fill (b : Board) {x y : Int} (p : Piece)
    (h : 0 ≤ x ∧ x < 8 ∧ 0 ≤ y ∧ y < 8) (hemp : (bget b x y).type = PieceType.NONE)
    (hp : p.type ≠ PieceType.NONE) :
    countPieces (bset b x y p) = countPieces b + 1 := by
  have key := countPieces_bset b p h
  simp only [bne_iff_ne, ne_eq] at key
  rw [if_neg (by simp [hemp]), if_pos hp] at key
  omega

lemma countPieces_keep (b : Board) {x y : Int} (p : Piece)
    (h : 0 ≤ x ∧ x < 8 ∧ 0 ≤ y ∧ y < 8) (hocc : (bget b x y).type ≠ PieceType.NONE)
    (hp : p.type ≠ PieceType.NONE) :
    countPieces (bset b x y p) = countPieces b := by
  have key := countPieces_bset b p h
  simp only [bne_iff_ne, ne_eq] at key
  rw [if_pos hocc, if_pos hp] at key
  omega

/-! ### Candidate-list capacity (C9) -/

lemma push_length_le {l : List Position} (p : Position) (h : l.length ≤ MAX_VALID_MOVES) :
    (push l p).length ≤ MAX_VALID_MOVES := by
  unfold push
  split <;> simp_all <;> omega

lemma kingScanDir_length_le (b : Board) (pl : Player) (ac : Bool) (dx dy : Int) :
    ∀ (fuel : Nat) (nx ny : Int) (opp : Bool) (st : List Position × Bool),
      st.1.length ≤ MAX_VALID_MOVES →
      (kingScanDir b pl ac dx dy fuel nx ny opp st).1.length ≤ MAX_VALID_MOVES := by
  intro fuel
  induction fuel with
  | zero => intro nx ny opp st h; exact h
  | succ n ih =>
    intro nx ny opp st h
    obtain ⟨acc, cap⟩ := st
    simp only [kingScanDir]
    split_ifs with h1 h2 h3 h4 h5 h6 h7
    · exact h
    · simp at h ⊢; omega
    · exact h
    · exact ih _ _ _ _ (push_length_le _ h)
    · exact ih _ _ _ _ h
    · exact ih _ _ _ _ h
    · exact h
    · exact h

lemma manDir_length_le (b : Board) (pl : Player) (ac : Bool) (x y dx dy : Int)
    (acc : List Position) (h : acc.length ≤ MAX_VALID_MOVES) :
    (manDir b pl ac x y dx dy acc).length ≤ MAX_VALID_MOVES := by
  simp only [manDir]
  split_ifs <;>
    first
      | exact h
      | exact push_length_le _ h
      | exact push_length_le _ (push_length_le _ h)

/-- C9: every call of `FindValidMoves` rebuilds the candidate list from an
empty one (`validMoveCount = 0` at entry) and guards every append with the
`MAX_VALID_MOVES` bound, so the resulting candidate count never exceeds 12
and no write lands at an index at or beyond 12; the result depends only on
the board and the source cell, never on a previous generation's list. -/
theorem c9_candidate_capacity (b : Board) (x y : Int) (isAfterCapture : Bool) :
    (FindValidMoves b x y isAfterCapture).length ≤ MAX_VALID_MOVES := by
  simp only [FindValidMoves]
  split
  · unfold kingMoves kingDirs
    simp only [List.foldl]
    split
    · simp [MAX_VALID_MOVES]
    · apply kingScanDir_length_le
      apply kingScanDir_length_le
      apply kingScanDir_length_le
      apply kingScanDir_length_le
      simp
  · unfold manMoves
    apply manDir_length_le
    apply manDir_length_le
    simp

/-! ### C1: the king scan scenario at (0,0) -/

/-- C1 counterexample: on the C1 board, generating candidates for the king
at (0,0) with `afterCapture = false` does not yield only (3,3): the empty
adjacent cell (1,1) is also offered as a simple-move candidate. -/
theorem c1_counterexample :
    Position.mk 1 1 ∈ FindValidMoves c1Board 0 0 false ∧
      FindValidMoves c1Board 0 0 false ≠ [⟨3, 3⟩] := by
  decide

/-- C1 amended: the scan yields exactly the simple move (1,1) and the
capture landing (3,3) over the piece at (2,2) — in particular no candidate
at or beyond (5,5), because the scan in a direction stops at the first
capture-landing cell. -/
theorem c1_amended_scan_stops :
    FindValidMoves c1Board 0 0 false = [⟨1, 1⟩, ⟨3, 3⟩] := by
  decide

/-! ### C5: empty source cell -/

/-- C5 counterexample: calling the move generator on the all-empty board
with the empty source cell (0,0) yields the non-empty candidate list
[(1,1)], not the empty list: the generator never checks that the source
cell holds a piece and instead reads its residual `player`/`isKing`
fields. -/
theorem c5_counterexample :
    (bget emptyBoard 0 0).type = PieceType.NONE ∧
      FindValidMoves emptyBoard 0 0 false ≠ [] := by
  decide

/-- C5 amended: an empty source cell is treated as if a piece with the
cell's residual `player` and `isKing` fields were present; on the all-empty
board (residual fields PLAYER1, non-king) the empty source (0,0) yields the
single simple-move candidate (1,1). -/
theorem c5_amended_empty_source :
    FindValidMoves emptyBoard 0 0 false = [⟨1, 1⟩] := by
  decide

/-! ### C8: promotion -/

/-- C8 counterexample: `PromoteToKing` applied to the empty cell (0,7) with
PLAYER1 to move changes the board — it turns the empty cell into a KING
piece — although the cell does not hold a man of that player. -/
theorem c8_counterexample :
    (bget gsEmpty.board 0 7).type = PieceType.NONE ∧
      (bget (PromoteToKing gsEmpty 0 7).board 0 7).type = PieceType.KING ∧
      (bget (PromoteToKing gsEmpty 0 7).board 0 7).isKing = true := by
  decide

lemma crowned_stable (b : Board) (x y : Int) :
    ({ bget (bset b x y ({ bget b x y with isKing := true, type := PieceType.KING })) x y with
        isKing := true, type := PieceType.KING } : Piece)
      = { bget b x y with isKing := true, type := PieceType.KING } := by
  by_cases h : 0 ≤ x ∧ x < 8 ∧ 0 ≤ y ∧ y < 8
  · rw [bget_bset_same _ _ h]
  · rw [bget_oob _ h, bget_oob _ h]

/-- C8 amended: `PromoteToKing` crowns the cell at `(x, y)` exactly when
`y` is the current player's far row (7 for PLAYER1, 0 for PLAYER2) —
regardless of what the cell holds — and changes nothing otherwise; it is
idempotent: a second application yields no additional change. -/
theorem c8_amended_promotion (gs : GameState) (x y : Int) :
    (PromoteToKing (PromoteToKing gs x y) x y = PromoteToKing gs x y) ∧
      ((PromoteToKing gs x y).board =
        if (gs.currentPlayer == Player.PLAYER1 && y == 7) ||
            (gs.currentPlayer == Player.PLAYER2 && y == 0) then
          bset gs.board x y
            ({ bget gs.board x y with isKing := true, type := PieceType.KING })
        else gs.board) ∧
      (PromoteToKing gs x y).currentPlayer = gs.currentPlayer ∧
      (PromoteToKing gs x y).player1Score = gs.player1Score ∧
      (PromoteToKing gs x y).player2Score = gs.player2Score := by
  obtain ⟨bd, cp, s1, s2, ps, sx, sy, vm, ic⟩ := gs
  refine ⟨?_, ?_, ?_, ?_, ?_⟩
  · simp only [PromoteToKing]
    split_ifs with h1 h2 <;>
      simp_all [GameState.mk.injEq, crowned_stable, bset_bset_same]
  · simp only [PromoteToKing]
    split_ifs with h1 h2 h3 <;> simp_all <;> tauto
  · simp only [PromoteToKing]
    split_ifs <;> rfl
  · simp only [PromoteToKing]
    split_ifs <;> rfl
  · simp only [PromoteToKing]
    split_ifs <;> rfl

/-! ### Characterization of the regular-piece candidates (C2) -/

lemma push_eq (l : List Position) (p : Position) (h : l.length < MAX_VALID_MOVES) :
    push l p = l ++ [p] := if_pos h

lemma manDir_length_le_add (b : Board) (pl : Player) (ac : Bool) (x y dx dy : Int)
    (acc : List Position) :
    (manDir b pl ac x y dx dy acc).length ≤ acc.length + 2 := by
  simp only [manDir, push]
  split_ifs <;> simp <;> omega

lemma mem_manDir (b : Board) (pl : Player) (ac : Bool) (x y dx dy : Int)
    (acc : List Position) (pos : Position) (hlen : acc.length + 2 ≤ MAX_VALID_MOVES) :
    pos ∈ manDir b pl ac x y dx dy acc ↔
      pos ∈ acc ∨
      (inBounds (x + dx) (y + dy) = true ∧
        (bget b (x + dx) (y + dy)).type = PieceType.NONE ∧ ac = false ∧
        pos = ⟨x + dx, y + dy⟩) ∨
      (inBounds (x + dx) (y + dy) = true ∧ inBounds (x + 2*dx) (y + 2*dy) = true ∧
        (bget b (x + 2*dx) (y + 2*dy)).type = PieceType.NONE ∧
        (bget b (x + dx) (y + dy)).type ≠ PieceType.NONE ∧
        (bget b (x + dx) (y + dy)).player ≠ pl ∧
        pos = ⟨x + 2*dx, y + 2*dy⟩) := by
  simp only [manDir]
  split_ifs with h1 h2 h3 h4
  · -- in bounds, capture added, simple move added
    rw [push_eq acc _ (by omega), push_eq _ _ (by simp; omega)]
    simp only [Bool.and_eq_true, beq_iff_eq, Bool.not_eq_true', bne_iff_ne, ne_eq,
      and_assoc] at h1 h2 h3
    simp only [List.mem_append, List.mem_singleton]
    tauto
  · -- in bounds, capture added, no simple move
    rw [push_eq acc _ (by omega)]
    simp only [Bool.and_eq_true, beq_iff_eq, Bool.not_eq_true', bne_iff_ne, ne_eq,
      and_assoc, not_and] at h1 h2 h3
    simp only [List.mem_append, List.mem_singleton]
    tauto
  · -- in bounds, no capture, simple move added
    rw [push_eq acc _ (by omega)]
    simp only [Bool.and_eq_true, beq_iff_eq, Bool.not_eq_true', bne_iff_ne, ne_eq,
      and_assoc, not_and] at h1 h2 h4
    simp only [List.mem_append, List.mem_singleton]
    tauto
  · -- in bounds, nothing added
    simp only [Bool.and_eq_true, beq_iff_eq, Bool.not_eq_true', bne_iff_ne, ne_eq,
      and_assoc, not_and] at h1 h2 h4
    tauto
  · -- adjacent cell out of bounds
    simp only [Bool.not_eq_true] at h1
    constructor
    · exact Or.inl
    · rintro (h | ⟨hb1, hrest⟩ | ⟨hb1, hrest⟩)
      · exact h
      · rw [h1] at hb1; cases hb1
      · rw [h1] at hb1; cases hb1

lemma mem_manMoves (b : Board) (pl : Player) (ac : Bool) (x y : Int) (pos : Position)
    (fdy : Int) (hfdy : fdy = if pl == Player.PLAYER1 then 1 else -1) :
    pos ∈ manMoves b pl ac x y ↔
      ∃ dx : Int, (dx = 1 ∨ dx = -1) ∧
        ((inBounds (x + dx) (y + fdy) = true ∧
            (bget b (x + dx) (y + fdy)).type = PieceType.NONE ∧ ac = false ∧
            pos = ⟨x + dx, y + fdy⟩) ∨
          (inBounds (x + dx) (y + fdy) = true ∧ inBounds (x + 2*dx) (y + 2*fdy) = true ∧
            (bget b (x + 2*dx) (y + 2*fdy)).type = PieceType.NONE ∧
            (bget b (x + dx) (y + fdy)).type ≠ PieceType.NONE ∧
            (bget b (x + dx) (y + fdy)).player ≠ pl ∧
            pos = ⟨x + 2*dx, y + 2*fdy⟩)) := by
  simp only [manMoves]
  rw [← hfdy]
  rw [mem_manDir b pl ac x y (-1) fdy _ pos
      (by have := manDir_length_le_add b pl ac x y 1 fdy []
          simp only [List.length_nil] at this
          simp only [MAX_VALID_MOVES]; omega),
    mem_manDir b pl ac x y 1 fdy [] pos (by simp [MAX_VALID_MOVES])]
  constructor
  · rintro ((h | h | h) | h | h)
    · cases h
    · exact ⟨1, Or.inl rfl, Or.inl h⟩
    · exact ⟨1, Or.inl rfl, Or.inr h⟩
    · exact ⟨-1, Or.inr rfl, Or.inl h⟩
    · exact ⟨-1, Or.inr rfl, Or.inr h⟩
  · rintro ⟨dx, (rfl | rfl), (h | h)⟩
    · exact Or.inl (Or.inr (Or.inl h))
    · exact Or.inl (Or.inr (Or.inr h))
    · exact Or.inr (Or.inl h)
    · exact Or.inr (Or.inr h)

/-- C2: for every board and every non-king source piece, the generator
offers the adjacent forward-diagonal cell as a simple move exactly when
that cell is empty, in bounds and `afterCapture` is false (so a man never
has a simple-move candidate when `afterCapture` is true), and offers the
two-step forward-diagonal landing exactly when that landing is empty and in
bounds and the adjacent cell in the same direction holds an opponent
piece. -/
theorem c2_man_candidates (b : Board) (x y : Int) (ac : Bool) (dx fdy : Int)
    (hin : inBounds x y = true)
    (hk : (bget b x y).isKing = false)
    (hdx : dx = 1 ∨ dx = -1)
    (hfdy : fdy = if (bget b x y).player == Player.PLAYER1 then 1 else -1) :
    (Position.mk (x + dx) (y + fdy) ∈ FindValidMoves b x y ac ↔
      (inBounds (x + dx) (y + fdy) = true ∧
        (bget b (x + dx) (y + fdy)).type = PieceType.NONE ∧ ac = false)) ∧
    (Position.mk (x + 2*dx) (y + 2*fdy) ∈ FindValidMoves b x y ac ↔
      (inBounds (x + 2*dx) (y + 2*fdy) = true ∧
        (bget b (x + 2*dx) (y + 2*fdy)).type = PieceType.NONE ∧
        (bget b (x + dx) (y + fdy)).type ≠ PieceType.NONE ∧
        (bget b (x + dx) (y + fdy)).player ≠ (bget b x y).player)) := by
  have hfdy1 : fdy = 1 ∨ fdy = -1 := by
    rw [hfdy]; split
    · exact Or.inl rfl
    · exact Or.inr rfl
  have hgen : FindValidMoves b x y ac = manMoves b (bget b x y).player ac x y := by
    simp only [FindValidMoves, hk, Bool.false_eq_true, if_false]
  rw [inBounds_iff] at hin
  constructor
  · rw [hgen, mem_manMoves b _ ac x y _ fdy hfdy]
    constructor
    · rintro ⟨dx', hdx', (⟨hb, ht, hac, heq⟩ | ⟨hb1, hb2, ht2, ht1, hp1, heq⟩)⟩
      · have hx := congrArg Position.x heq
        simp only at hx
        have : dx' = dx := by omega
        subst this
        exact ⟨hb, ht, hac⟩
      · have hy := congrArg Position.y heq
        simp only at hy
        omega
    · rintro ⟨hb, ht, hac⟩
      exact ⟨dx, hdx, Or.inl ⟨hb, ht, hac, rfl⟩⟩
  · rw [hgen, mem_manMoves b _ ac x y _ fdy hfdy]
    constructor
    · rintro ⟨dx', hdx', (⟨hb, ht, hac, heq⟩ | ⟨hb1, hb2, ht2, ht1, hp1, heq⟩)⟩
      · have hy := congrArg Position.y heq
        simp only at hy
        omega
      · have hx := congrArg Position.x heq
        simp only at hx
        have : dx' = dx := by omega
        subst this
        exact ⟨hb2, ht2, ht1, hp1⟩
    · rintro ⟨hb2, ht2, ht1, hp1⟩
      have hb1 : inBounds (x + dx) (y + fdy) = true := by
        rw [inBounds_iff] at hb2 ⊢
        omega
      exact ⟨dx, hdx, Or.inr ⟨hb1, hb2, ht2, ht1, hp1, rfl⟩⟩

/-- C2 witness: the man of PLAYER1 at (2,2) on `manCapBoard`, direction
down-right: the two-step landing (4,4) is a candidate because (3,3) holds
an opponent piece and (4,4) is empty. -/
theorem c2_man_candidates_witness :
    (inBounds 2 2 = true ∧ (bget manCapBoard 2 2).isKing = false ∧
      ((1 : Int) = 1 ∨ (1 : Int) = -1) ∧
      ((1 : Int) = if (bget manCapBoard 2 2).player == Player.PLAYER1 then 1 else -1)) ∧
    (Position.mk (2 + 2*1) (2 + 2*1) ∈ FindValidMoves manCapBoard 2 2 false ↔
      (inBounds (2 + 2*1) (2 + 2*1) = true ∧
        (bget manCapBoard (2 + 2*1) (2 + 2*1)).type = PieceType.NONE ∧
        (bget manCapBoard (2 + 1) (2 + 1)).type ≠ PieceType.NONE ∧
        (bget manCapBoard (2 + 1) (2 + 1)).player ≠ (bget manCapBoard 2 2).player)) :=
  ⟨⟨by decide, by decide, Or.inl rfl, by decide⟩,
    (c2_man_candidates manCapBoard 2 2 false 1 1 (by decide) (by decide)
      (Or.inl rfl) (by decide)).2⟩

/-! ### Characterization of the king candidates -/

lemma mem_push {acc : List Position} {p pos : Position} (h : pos ∈ push acc p) :
    pos ∈ acc ∨ pos = p := by
  unfold push at h
  split_ifs at h
  · rcases List.mem_append.mp h with h' | h'
    · exact Or.inl h'
    · exact Or.inr (List.mem_singleton.mp h')
  · exact Or.inl h

lemma push_extends (acc : List Position) (p : Position) :
    ∃ t, push acc p = acc ++ t := by
  unfold push
  split_ifs
  · exact ⟨[p], rfl⟩
  · exact ⟨[], by simp⟩

lemma kingScanDir_extends (b : Board) (pl : Player) (ac : Bool) (dx dy : Int) :
    ∀ (fuel : Nat) (nx ny : Int) (opp : Bool) (acc : List Position) (cap : Bool),
      ∃ t, (kingScanDir b pl ac dx dy fuel nx ny opp (acc, cap)).1 = acc ++ t := by
  intro fuel
  induction fuel with
  | zero =>
    intro nx ny opp acc cap
    exact ⟨[], by simp [kingScanDir]⟩
  | succ n ih =>
    intro nx ny opp acc cap
    simp only [kingScanDir]
    split_ifs with h1 h2 h3 h4 h5 h6 h7
    · exact ⟨[], by simp⟩
    · exact ⟨[⟨nx, ny⟩], rfl⟩
    · exact ⟨[], by simp⟩
    · obtain ⟨t1, ht1⟩ := push_extends acc ⟨nx, ny⟩
      obtain ⟨t2, ht2⟩ := ih (nx + dx) (ny + dy) opp (push acc ⟨nx, ny⟩) cap
      exact ⟨t1 ++ t2, by rw [ht2, ht1, List.append_assoc]⟩
    · exact ih (nx + dx) (ny + dy) opp acc cap
    · exact ih (nx + dx) (ny + dy) true acc cap
    · exact ⟨[], by simp⟩
    · exact ⟨[], by simp⟩

lemma kingSimpleRay_shift (b : Board) (vx vy dx dy : Int) (m : Nat)
    (hb : inBounds (vx + dx) (vy + dy) = true)
    (he : (bget b (vx + dx) (vy + dy)).type = PieceType.NONE)
    (h : kingSimpleRay b (vx + dx) (vy + dy) dx dy m) :
    kingSimpleRay b vx vy dx dy (m + 1) := by
  intro j hj1 hj2
  cases j with
  | zero => omega
  | succ k =>
    cases k with
    | zero =>
      have e1 : vx + ((1 : Nat) : Int)*dx = vx + dx := by push_cast; ring
      have e2 : vy + ((1 : Nat) : Int)*dy = vy + dy := by push_cast; ring
      rw [e1, e2]
      exact ⟨hb, he⟩
    | succ i =>
      have e1 : vx + ((i + 2 : Nat) : Int)*dx = (vx + dx) + ((i + 1 : Nat) : Int)*dx := by
        push_cast; ring
      have e2 : vy + ((i + 2 : Nat) : Int)*dy = (vy + dy) + ((i + 1 : Nat) : Int)*dy := by
        push_cast; ring
      rw [e1, e2]
      exact h (i + 1) (by omega) (by omega)

lemma kingCaptureRay_shift (b : Board) (pl : Player) (vx vy dx dy : Int) (e : Nat)
    (hb : inBounds (vx + dx) (vy + dy) = true)
    (he : (bget b (vx + dx) (vy + dy)).type = PieceType.NONE)
    (h : kingCaptureRay b pl (vx + dx) (vy + dy) dx dy e) :
    kingCaptureRay b pl vx vy dx dy (e + 1) := by
  obtain ⟨hlead, hob, hot, hop, hlb, hle⟩ := h
  refine ⟨?_, ?_, ?_, ?_, ?_, ?_⟩
  · intro j hj1 hj2
    cases j with
    | zero => omega
    | succ k =>
      cases k with
      | zero =>
        have e1 : vx + ((1 : Nat) : Int)*dx = vx + dx := by push_cast; ring
        have e2 : vy + ((1 : Nat) : Int)*dy = vy + dy := by push_cast; ring
        rw [e1, e2]
        exact ⟨hb, he⟩
      | succ i =>
        have e1 : vx + ((i + 2 : Nat) : Int)*dx = (vx + dx) + ((i + 1 : Nat) : Int)*dx := by
          push_cast; ring
        have e2 : vy + ((i + 2 : Nat) : Int)*dy = (vy + dy) + ((i + 1 : Nat) : Int)*dy := by
          push_cast; ring
        rw [e1, e2]
        exact hlead (i + 1) (by omega) (by omega)
  · have e1 : vx + (((e + 1 : Nat) : Int) + 1)*dx = (vx + dx) + (((e : Nat) : Int) + 1)*dx := by
      push_cast; ring
    have e2 : vy + (((e + 1 : Nat) : Int) + 1)*dy = (vy + dy) + (((e : Nat) : Int) + 1)*dy := by
      push_cast; ring
    rw [e1, e2]; exact hob
  · have e1 : vx + (((e + 1 : Nat) : Int) + 1)*dx = (vx + dx) + (((e : Nat) : Int) + 1)*dx := by
      push_cast; ring
    have e2 : vy + (((e + 1 : Nat) : Int) + 1)*dy = (vy + dy) + (((e : Nat) : Int) + 1)*dy := by
      push_cast; ring
    rw [e1, e2]; exact hot
  · have e1 : vx + (((e + 1 : Nat) : Int) + 1)*dx = (vx + dx) + (((e : Nat) : Int) + 1)*dx := by
      push_cast; ring
    have e2 : vy + (((e + 1 : Nat) : Int) + 1)*dy = (vy + dy) + (((e : Nat) : Int) + 1)*dy := by
      push_cast; ring
    rw [e1, e2]; exact hop
  · have e1 : vx + (((e + 1 : Nat) : Int) + 2)*dx = (vx + dx) + (((e : Nat) : Int) + 2)*dx := by
      push_cast; ring
    have e2 : vy + (((e + 1 : Nat) : Int) + 2)*dy = (vy + dy) + (((e : Nat) : Int) + 2)*dy := by
      push_cast; ring
    rw [e1, e2]; exact hlb
  · have e1 : vx + (((e + 1 : Nat) : Int) + 2)*dx = (vx + dx) + (((e : Nat) : Int) + 2)*dx := by
      push_cast; ring
    have e2 : vy + (((e + 1 : Nat) : Int) + 2)*dy = (vy + dy) + (((e : Nat) : Int) + 2)*dy := by
      push_cast; ring
    rw [e1, e2]; exact hle

lemma kingScanDir_mem (b : Board) (pl : Player) (ac : Bool) (dx dy : Int) :
    ∀ (fuel : Nat) (vx vy : Int) (opp : Bool) (st : List Position × Bool)
      (pos : Position),
      pos ∈ (kingScanDir b pl ac dx dy fuel (vx + dx) (vy + dy) opp st).1 →
      pos ∈ st.1 ∨
      (opp = true ∧ inBounds (vx + dx) (vy + dy) = true ∧
        (bget b (vx + dx) (vy + dy)).type = PieceType.NONE ∧ pos = ⟨vx + dx, vy + dy⟩) ∨
      (opp = false ∧ ac = false ∧ ∃ m : Nat, 1 ≤ m ∧ kingSimpleRay b vx vy dx dy m ∧
        pos = ⟨vx + (m : Int)*dx, vy + (m : Int)*dy⟩) ∨
      (opp = false ∧ ∃ e : Nat, kingCaptureRay b pl vx vy dx dy e ∧
        pos = ⟨vx + ((e : Int)+2)*dx, vy + ((e : Int)+2)*dy⟩) := by
  intro fuel
  induction fuel with
  | zero =>
    intro vx vy opp st pos h
    exact Or.inl h
  | succ n ih =>
    intro vx vy opp st pos h
    obtain ⟨acc, cap⟩ := st
    simp only [kingScanDir] at h
    split_ifs at h with h1 h2 h3 h4 h5 h6 h7
    · exact Or.inl h
    · -- empty cell, opponent already found, landing appended
      rw [Bool.not_eq_false] at h1
      rcases List.mem_append.mp h with h' | h'
      · exact Or.inl h'
      · exact Or.inr (Or.inl ⟨h3, h1, by simpa using h2, List.mem_singleton.mp h'⟩)
    · exact Or.inl h
    · -- empty cell, no opponent yet, not after capture: simple candidate and recurse
      rw [Bool.not_eq_false] at h1
      rw [Bool.not_eq_true] at h3
      have he2 : (bget b (vx + dx) (vy + dy)).type = PieceType.NONE := by simpa using h2
      rcases ih (vx + dx) (vy + dy) opp (push acc ⟨vx + dx, vy + dy⟩, cap) pos h with
        h' | ⟨ho, -⟩ | ⟨-, hac, m, hm, hray, hpos⟩ | ⟨-, e, hray, hpos⟩
      · rcases mem_push h' with h'' | h''
        · exact Or.inl h''
        · refine Or.inr (Or.inr (Or.inl ⟨h3, by simpa using h5, 1, le_refl 1, ?_, ?_⟩))
          · intro j hj1 hj2
            have hj : j = 1 := by omega
            subst hj
            have e1 : vx + ((1 : Nat) : Int)*dx = vx + dx := by push_cast; ring
            have e2 : vy + ((1 : Nat) : Int)*dy = vy + dy := by push_cast; ring
            rw [e1, e2]
            exact ⟨h1, he2⟩
          · have e1 : vx + ((1 : Nat) : Int)*dx = vx + dx := by push_cast; ring
            have e2 : vy + ((1 : Nat) : Int)*dy = vy + dy := by push_cast; ring
            rw [e1, e2]
            exact h''
      · rw [h3] at ho; cases ho
      · refine Or.inr (Or.inr (Or.inl ⟨h3, hac, m + 1, by omega,
          kingSimpleRay_shift b vx vy dx dy m h1 he2 hray, ?_⟩))
        rw [hpos]
        have e1 : (vx + dx) + (m : Int)*dx = vx + ((m + 1 : Nat) : Int)*dx := by
          push_cast; ring
        have e2 : (vy + dy) + (m : Int)*dy = vy + ((m + 1 : Nat) : Int)*dy := by
          push_cast; ring
        rw [e1, e2]
      · refine Or.inr (Or.inr (Or.inr ⟨h3, e + 1,
          kingCaptureRay_shift b pl vx vy dx dy e h1 he2 hray, ?_⟩))
        rw [hpos]
        have e1 : (vx + dx) + ((e : Int)+2)*dx = vx + (((e + 1 : Nat) : Int)+2)*dx := by
          push_cast; ring
        have e2 : (vy + dy) + ((e : Int)+2)*dy = vy + (((e + 1 : Nat) : Int)+2)*dy := by
          push_cast; ring
        rw [e1, e2]
    · -- empty cell, no opponent yet, after capture: recurse without adding
      rw [Bool.not_eq_false] at h1
      rw [Bool.not_eq_true] at h3
      have he2 : (bget b (vx + dx) (vy + dy)).type = PieceType.NONE := by simpa using h2
      rcases ih (vx + dx) (vy + dy) opp (acc, cap) pos h with
        h' | ⟨ho, -⟩ | ⟨-, hac, m, hm, hray, hpos⟩ | ⟨-, e, hray, hpos⟩
      · exact Or.inl h'
      · rw [h3] at ho; cases ho
      · refine Or.inr (Or.inr (Or.inl ⟨h3, hac, m + 1, by omega,
          kingSimpleRay_shift b vx vy dx dy m h1 he2 hray, ?_⟩))
        rw [hpos]
        have e1 : (vx + dx) + (m : Int)*dx = vx + ((m + 1 : Nat) : Int)*dx := by
          push_cast; ring
        have e2 : (vy + dy) + (m : Int)*dy = vy + ((m + 1 : Nat) : Int)*dy := by
          push_cast; ring
        rw [e1, e2]
      · refine Or.inr (Or.inr (Or.inr ⟨h3, e + 1,
          kingCaptureRay_shift b pl vx vy dx dy e h1 he2 hray, ?_⟩))
        rw [hpos]
        have e1 : (vx + dx) + ((e : Int)+2)*dx = vx + (((e + 1 : Nat) : Int)+2)*dx := by
          push_cast; ring
        have e2 : (vy + dy) + ((e : Int)+2)*dy = vy + (((e + 1 : Nat) : Int)+2)*dy := by
          push_cast; ring
        rw [e1, e2]
    · -- opponent piece found for the first time: recurse with the flag set
      rw [Bool.not_eq_false] at h1
      rcases ih (vx + dx) (vy + dy) true (acc, cap) pos h with
        h' | ⟨-, hb2, he2, hpos⟩ | ⟨ho, -⟩ | ⟨ho, -⟩
      · exact Or.inl h'
      · refine Or.inr (Or.inr (Or.inr ⟨h7, 0, ⟨?_, ?_, ?_, ?_, ?_, ?_⟩, ?_⟩))
        · intro j hj1 hj2; omega
        · have e1 : vx + (((0 : Nat) : Int)+1)*dx = vx + dx := by push_cast; ring
          have e2 : vy + (((0 : Nat) : Int)+1)*dy = vy + dy := by push_cast; ring
          rw [e1, e2]; exact h1
        · have e1 : vx + (((0 : Nat) : Int)+1)*dx = vx + dx := by push_cast; ring
          have e2 : vy + (((0 : Nat) : Int)+1)*dy = vy + dy := by push_cast; ring
          rw [e1, e2]
          simpa using h2
        · have e1 : vx + (((0 : Nat) : Int)+1)*dx = vx + dx := by push_cast; ring
          have e2 : vy + (((0 : Nat) : Int)+1)*dy = vy + dy := by push_cast; ring
          rw [e1, e2]
          simpa using h6
        · have e1 : vx + (((0 : Nat) : Int)+2)*dx = (vx + dx) + dx := by push_cast; ring
          have e2 : vy + (((0 : Nat) : Int)+2)*dy = (vy + dy) + dy := by push_cast; ring
          rw [e1, e2]; exact hb2
        · have e1 : vx + (((0 : Nat) : Int)+2)*dx = (vx + dx) + dx := by push_cast; ring
          have e2 : vy + (((0 : Nat) : Int)+2)*dy = (vy + dy) + dy := by push_cast; ring
          rw [e1, e2]; exact he2
        · have e1 : vx + (((0 : Nat) : Int)+2)*dx = (vx + dx) + dx := by push_cast; ring
          have e2 : vy + (((0 : Nat) : Int)+2)*dy = (vy + dy) + dy := by push_cast; ring
          rw [e1, e2]; exact hpos
      · cases ho
      · cases ho
    · exact Or.inl h
    · exact Or.inl h

/-- Every king candidate is either the end of an all-empty simple ray
(only when not after a capture) or the landing of a capture ray over
exactly one opponent piece. -/
lemma mem_kingMoves (b : Board) (pl : Player) (ac : Bool) (x y : Int) (pos : Position)
    (h : pos ∈ kingMoves b pl ac x y) :
    ∃ dx dy : Int, (dx, dy) ∈ kingDirs ∧
      ((ac = false ∧ ∃ m : Nat, 1 ≤ m ∧ kingSimpleRay b x y dx dy m ∧
          pos = ⟨x + (m : Int)*dx, y + (m : Int)*dy⟩) ∨
        (∃ e : Nat, kingCaptureRay b pl x y dx dy e ∧
          pos = ⟨x + ((e : Int)+2)*dx, y + ((e : Int)+2)*dy⟩)) := by
  unfold kingMoves kingDirs at h
  simp only [List.foldl] at h
  have hmem : pos ∈ (kingScanDir b pl ac (-1) (-1) 16 (x + -1) (y + -1) false
      (kingScanDir b pl ac 1 (-1) 16 (x + 1) (y + -1) false
        (kingScanDir b pl ac (-1) 1 16 (x + -1) (y + 1) false
          (kingScanDir b pl ac 1 1 16 (x + 1) (y + 1) false ([], false))))).1 := by
    by_cases hc : (ac && !(kingScanDir b pl ac (-1) (-1) 16 (x + -1) (y + -1) false
      (kingScanDir b pl ac 1 (-1) 16 (x + 1) (y + -1) false
        (kingScanDir b pl ac (-1) 1 16 (x + -1) (y + 1) false
          (kingScanDir b pl ac 1 1 16 (x + 1) (y + 1) false ([], false))))).2) = true
    · rw [if_pos hc] at h; cases h
    · rw [if_neg hc] at h; exact h
  rcases kingScanDir_mem b pl ac (-1) (-1) 16 x y false _ pos hmem with
    h4 | ⟨ho, -⟩ | ⟨-, hac, m, hm, hray, hpos⟩ | ⟨-, e, hray, hpos⟩
  · rcases kingScanDir_mem b pl ac 1 (-1) 16 x y false _ pos h4 with
      h3 | ⟨ho, -⟩ | ⟨-, hac, m, hm, hray, hpos⟩ | ⟨-, e, hray, hpos⟩
    · rcases kingScanDir_mem b pl ac (-1) 1 16 x y false _ pos h3 with
        h2 | ⟨ho, -⟩ | ⟨-, hac, m, hm, hray, hpos⟩ | ⟨-, e, hray, hpos⟩
      · rcases kingScanDir_mem b pl ac 1 1 16 x y false _ pos h2 with
          h1 | ⟨ho, -⟩ | ⟨-, hac, m, hm, hray, hpos⟩ | ⟨-, e, hray, hpos⟩
        · cases h1
        · cases ho
        · exact ⟨1, 1, by decide, Or.inl ⟨hac, m, hm, hray, hpos⟩⟩
        · exact ⟨1, 1, by decide, Or.inr ⟨e, hray, hpos⟩⟩
      · cases ho
      · exact ⟨-1, 1, by decide, Or.inl ⟨hac, m, hm, hray, hpos⟩⟩
      · exact ⟨-1, 1, by decide, Or.inr ⟨e, hray, hpos⟩⟩
    · cases ho
    · exact ⟨1, -1, by decide, Or.inl ⟨hac, m, hm, hray, hpos⟩⟩
    · exact ⟨1, -1, by decide, Or.inr ⟨e, hray, hpos⟩⟩
  · cases ho
  · exact ⟨-1, -1, by decide, Or.inl ⟨hac, m, hm, hray, hpos⟩⟩
  · exact ⟨-1, -1, by decide, Or.inr ⟨e, hray, hpos⟩⟩

/-! ### The king capture walk of `HandleInput` -/

lemma bset_oob_eq (b : Board) {x y : Int} (p : Piece)
    (h : ¬(0 ≤ x ∧ x < 8 ∧ 0 ≤ y ∧ y < 8)) : bset b x y p = b := by
  funext r c
  simp only [bset]
  rw [if_neg]
  rintro ⟨hr, hc⟩
  have hrlt := r.isLt
  have hclt := c.isLt
  omega

lemma kingCaptureScan_zero_fuel (b : Board) (pl : Player) (X Y dx dy : Int) (cx cy : Int) :
    kingCaptureScan b pl X Y dx dy 0 cx cy = (b, false) := rfl

lemma kingCaptureScan_find (b : Board) (pl : Player) (X Y dx dy : Int) :
    ∀ (e fuel : Nat) (cx cy : Int), e < fuel →
      (∀ j : Nat, j < e → (bget b (cx + (j:Int)*dx) (cy + (j:Int)*dy)).type = PieceType.NONE) →
      (∀ j : Nat, j ≤ e → cx + (j:Int)*dx ≠ X ∧ cy + (j:Int)*dy ≠ Y) →
      (bget b (cx + (e:Int)*dx) (cy + (e:Int)*dy)).type ≠ PieceType.NONE →
      (bget b (cx + (e:Int)*dx) (cy + (e:Int)*dy)).player ≠ pl →
      kingCaptureScan b pl X Y dx dy fuel cx cy =
        (bset b (cx + (e:Int)*dx) (cy + (e:Int)*dy)
          ({ bget b (cx + (e:Int)*dx) (cy + (e:Int)*dy) with type := PieceType.NONE }), true) := by
  intro e
  induction e with
  | zero =>
    intro fuel cx cy hf hemp hne hot hop
    obtain ⟨f, rfl⟩ : ∃ f, fuel = f + 1 := ⟨fuel - 1, by omega⟩
    have h0 := hne 0 (le_refl 0)
    simp only [Nat.cast_zero, zero_mul, add_zero] at h0 hot hop ⊢
    simp only [kingCaptureScan]
    rw [if_pos h0, if_pos ⟨hot, hop⟩]
  | succ k ih =>
    intro fuel cx cy hf hemp hne hot hop
    obtain ⟨f, rfl⟩ : ∃ f, fuel = f + 1 := ⟨fuel - 1, by omega⟩
    have h0 := hne 0 (by omega)
    have he0 := hemp 0 (by omega)
    simp only [Nat.cast_zero, zero_mul, add_zero] at h0 he0
    simp only [kingScanDir, kingCaptureScan]
    rw [if_pos h0, if_neg (fun hc => hc.1 he0)]
    have e1 : ∀ j : Nat, (cx + dx) + (j:Int)*dx = cx + ((j+1 : Nat):Int)*dx := by
      intro j; push_cast; ring
    have e2 : ∀ j : Nat, (cy + dy) + (j:Int)*dy = cy + ((j+1 : Nat):Int)*dy := by
      intro j; push_cast; ring
    have hres := ih f (cx + dx) (cy + dy) (by omega)
      (fun j hj => by rw [e1 j, e2 j]; exact hemp (j+1) (by omega))
      (fun j hj => by rw [e1 j, e2 j]; exact hne (j+1) (by omega))
      (by rw [e1 k, e2 k]; exact hot)
      (by rw [e1 k, e2 k]; exact hop)
    rw [hres, e1 k, e2 k]

lemma kingCaptureScan_allEmpty (b : Board) (pl : Player) (X Y dx dy : Int) :
    ∀ (n fuel : Nat) (cx cy : Int), n < fuel →
      (∀ j : Nat, j < n → cx + (j:Int)*dx ≠ X ∧ cy + (j:Int)*dy ≠ Y) →
      (∀ j : Nat, j < n → (bget b (cx + (j:Int)*dx) (cy + (j:Int)*dy)).type = PieceType.NONE) →
      (cx + (n:Int)*dx = X ∨ cy + (n:Int)*dy = Y) →
      kingCaptureScan b pl X Y dx dy fuel cx cy = (b, false) := by
  intro n
  induction n with
  | zero =>
    intro fuel cx cy hf hne hemp hstop
    obtain ⟨f, rfl⟩ : ∃ f, fuel = f + 1 := ⟨fuel - 1, by omega⟩
    simp only [Nat.cast_zero, zero_mul, add_zero] at hstop
    simp only [kingCaptureScan]
    rw [if_neg (by tauto)]
  | succ k ih =>
    intro fuel cx cy hf hne hemp hstop
    obtain ⟨f, rfl⟩ : ∃ f, fuel = f + 1 := ⟨fuel - 1, by omega⟩
    have h0 := hne 0 (by omega)
    have he0 := hemp 0 (by omega)
    simp only [Nat.cast_zero, zero_mul, add_zero] at h0 he0
    simp only [kingCaptureScan]
    rw [if_pos h0, if_neg (fun hc => hc.1 he0)]
    have e1 : ∀ j : Nat, (cx + dx) + (j:Int)*dx = cx + ((j+1 : Nat):Int)*dx := by
      intro j; push_cast; ring
    have e2 : ∀ j : Nat, (cy + dy) + (j:Int)*dy = cy + ((j+1 : Nat):Int)*dy := by
      intro j; push_cast; ring
    exact ih f (cx + dx) (cy + dy) (by omega)
      (fun j hj => by rw [e1 j, e2 j]; exact hne (j+1) (by omega))
      (fun j hj => by rw [e1 j, e2 j]; exact hemp (j+1) (by omega))
      (by rw [e1 k, e2 k]; exact hstop)

lemma kingCaptureScan_shape (b : Board) (pl : Player) (X Y dx dy : Int) :
    ∀ (fuel : Nat) (cx cy : Int),
      kingCaptureScan b pl X Y dx dy fuel cx cy = (b, false) ∨
      ∃ u v : Int, (bget b u v).type ≠ PieceType.NONE ∧ (bget b u v).player ≠ pl ∧
        kingCaptureScan b pl X Y dx dy fuel cx cy =
          (bset b u v ({ bget b u v with type := PieceType.NONE }), true) := by
  intro fuel
  induction fuel with
  | zero => intro cx cy; exact Or.inl rfl
  | succ n ih =>
    intro cx cy
    simp only [kingCaptureScan]
    split_ifs with h1 h2
    · exact Or.inr ⟨cx, cy, h2.1, h2.2, rfl⟩
    · exact ih (cx + dx) (cy + dy)
    · exact Or.inl rfl

/-! ### Frame and counting helpers for the move application -/

lemma bget_typeClear (b : Board) (u v cx cy : Int) :
    (bget (bset b u v ({ bget b u v with type := PieceType.NONE })) cx cy).player =
        (bget b cx cy).player ∧
      (bget (bset b u v ({ bget b u v with type := PieceType.NONE })) cx cy).isKing =
        (bget b cx cy).isKing := by
  by_cases hc : cx = u ∧ cy = v
  · obtain ⟨rfl, rfl⟩ := hc
    by_cases hb : 0 ≤ cx ∧ cx < 8 ∧ 0 ≤ cy ∧ cy < 8
    · rw [bget_bset_same _ _ hb]
      exact ⟨rfl, rfl⟩
    · rw [bset_oob_eq _ _ hb]
      exact ⟨rfl, rfl⟩
  · rw [bget_bset_ne _ _ hc]
    exact ⟨rfl, rfl⟩

lemma capturePhase_typeOnly (gs : GameState) (x y : Int) (cx cy : Int) :
    (bget (capturePhase gs x y).1 cx cy).player = (bget gs.board cx cy).player ∧
      (bget (capturePhase gs x y).1 cx cy).isKing = (bget gs.board cx cy).isKing := by
  simp only [capturePhase]
  generalize (if x > gs.selectedX then (1:Int) else -1) = dx0
  generalize (if y > gs.selectedY then (1:Int) else -1) = dy0
  split_ifs with h1 h2 h3
  · -- king walk found no capture: by the shape lemma the board is unchanged
    rcases kingCaptureScan_shape gs.board gs.currentPlayer x y dx0 dy0 16
        (gs.selectedX + dx0) (gs.selectedY + dy0) with hs | ⟨u, v, -, -, hs⟩
    · rw [hs]
      exact ⟨rfl, rfl⟩
    · rw [hs]
      exact bget_typeClear _ _ _ _ _
  · rcases kingCaptureScan_shape gs.board gs.currentPlayer x y dx0 dy0 16
        (gs.selectedX + dx0) (gs.selectedY + dy0) with hs | ⟨u, v, -, -, hs⟩
    · rw [hs]
      exact ⟨rfl, rfl⟩
    · rw [hs]
      exact bget_typeClear _ _ _ _ _
  · exact bget_typeClear _ _ _ _ _
  · exact ⟨rfl, rfl⟩

lemma movedBoard_dest (b1 : Board) (sx sy px py : Int)
    (hd : 0 ≤ px ∧ px < 8 ∧ 0 ≤ py ∧ py < 8) (hne : ¬(px = sx ∧ py = sy)) :
    bget (movedBoard b1 sx sy px py) px py = bget b1 sx sy := by
  unfold movedBoard
  rw [bget_bset_ne _ _ hne, bget_bset_same _ _ hd]

lemma movedBoard_src (b1 : Board) (sx sy px py : Int)
    (hs : 0 ≤ sx ∧ sx < 8 ∧ 0 ≤ sy ∧ sy < 8) (hne : ¬(px = sx ∧ py = sy)) :
    bget (movedBoard b1 sx sy px py) sx sy =
      { bget b1 sx sy with type := PieceType.NONE } := by
  unfold movedBoard
  rw [bget_bset_same _ _ hs, bget_bset_ne _ _ (by tauto)]

lemma movedBoard_frame (b1 : Board) (sx sy px py cx cy : Int)
    (h1 : ¬(cx = sx ∧ cy = sy)) (h2 : ¬(cx = px ∧ cy = py)) :
    bget (movedBoard b1 sx sy px py) cx cy = bget b1 cx cy := by
  unfold movedBoard
  rw [bget_bset_ne _ _ h1, bget_bset_ne _ _ h2]

lemma movedBoard_count (b1 : Board) (sx sy px py : Int)
    (hs : 0 ≤ sx ∧ sx < 8 ∧ 0 ≤ sy ∧ sy < 8) (hd : 0 ≤ px ∧ px < 8 ∧ 0 ≤ py ∧ py < 8)
    (hne : ¬(px = sx ∧ py = sy)) (hocc : (bget b1 sx sy).type ≠ PieceType.NONE)
    (hdemp : (bget b1 px py).type = PieceType.NONE) :
    countPieces (movedBoard b1 sx sy px py) = countPieces b1 := by
  simp only [movedBoard]
  have h2 : bget (bset b1 px py (bget b1 sx sy)) sx sy = bget b1 sx sy :=
    bget_bset_ne _ _ (by tauto)
  have c2 : countPieces (bset b1 px py (bget b1 sx sy)) = countPieces b1 + 1 :=
    countPieces_fill _ _ hd hdemp hocc
  have c3 := countPieces_clear (bset b1 px py (bget b1 sx sy)) hs (by rw [h2]; exact hocc)
  dsimp only at c3 ⊢
  omega

lemma PromoteToKing_proj (gs : GameState) (x y : Int) :
    (PromoteToKing gs x y).currentPlayer = gs.currentPlayer ∧
      (PromoteToKing gs x y).player1Score = gs.player1Score ∧
      (PromoteToKing gs x y).player2Score = gs.player2Score ∧
      (PromoteToKing gs x y).pieceSelected = gs.pieceSelected ∧
      (PromoteToKing gs x y).selectedX = gs.selectedX ∧
      (PromoteToKing gs x y).selectedY = gs.selectedY ∧
      (PromoteToKing gs x y).validMoves = gs.validMoves ∧
      (PromoteToKing gs x y).isCapturing = gs.isCapturing := by
  unfold PromoteToKing
  split_ifs <;> exact ⟨rfl, rfl, rfl, rfl, rfl, rfl, rfl, rfl⟩

lemma PromoteToKing_board_congr (gs gs' : GameState) (x y : Int)
    (hb : gs.board = gs'.board) (hc : gs.currentPlayer = gs'.currentPlayer) :
    (PromoteToKing gs x y).board = (PromoteToKing gs' x y).board := by
  unfold PromoteToKing
  rw [hb, hc]
  split_ifs <;> first | rfl | exact hb

lemma PromoteToKing_frame (gs : GameState) (x y cx cy : Int) (h : ¬(cx = x ∧ cy = y)) :
    bget (PromoteToKing gs x y).board cx cy = bget gs.board cx cy := by
  unfold PromoteToKing
  split_ifs <;> first | rfl | exact bget_bset_ne _ _ h

lemma PromoteToKing_count (gs : GameState) (x y : Int)
    (hocc : (bget gs.board x y).type ≠ PieceType.NONE) :
    countPieces (PromoteToKing gs x y).board = countPieces gs.board := by
  unfold PromoteToKing
  split_ifs <;>
    first
      | rfl
      | (show countPieces (bset gs.board x y _) = countPieces gs.board
         by_cases hb : 0 ≤ x ∧ x < 8 ∧ 0 ≤ y ∧ y < 8
         · exact countPieces_keep _ _ hb hocc (by simp)
         · rw [bset_oob_eq _ _ hb])

lemma applyMove_board (gs : GameState) (px py : Int) :
    (applyMove gs px py).board =
      (PromoteToKing
        { gs with board := movedBoard (capturePhase gs px py).1 gs.selectedX gs.selectedY px py }
        px py).board := by
  simp only [applyMove]
  split_ifs <;>
    first
      | exact PromoteToKing_board_congr _ _ _ _ rfl rfl
      | (simp only [SwitchTurn]
         exact PromoteToKing_board_congr _ _ _ _ rfl rfl)

lemma applyMove_scores (gs : GameState) (px py : Int) :
    (applyMove gs px py).player1Score =
      (if (capturePhase gs px py).2.1 && gs.currentPlayer == Player.PLAYER1 then
        gs.player1Score + 1 else gs.player1Score) ∧
    (applyMove gs px py).player2Score =
      (if (capturePhase gs px py).2.1 && gs.currentPlayer == Player.PLAYER2 then
        gs.player2Score + 1 else gs.player2Score) := by
  simp only [applyMove]
  split_ifs <;>
    constructor <;>
    simp only [SwitchTurn] <;>
    first
      | exact (PromoteToKing_proj _ _ _).2.1
      | exact (PromoteToKing_proj _ _ _).2.2.1

lemma capturePhase_adjacent (gs : GameState) (px py : Int)
    (h : ¬(1 < (gs.selectedX - px).natAbs ∧ 1 < (gs.selectedY - py).natAbs)) :
    capturePhase gs px py = (gs.board, false, false, gs.isCapturing) := by
  simp only [capturePhase]
  rw [if_neg]
  simp only [Bool.and_eq_true, decide_eq_true_iff]
  exact fun hc => h hc

lemma capturePhase_man (gs : GameState) (px py : Int)
    (hk : (bget gs.board gs.selectedX gs.selectedY).isKing = false)
    (h1 : 1 < (gs.selectedX - px).natAbs) (h2 : 1 < (gs.selectedY - py).natAbs) :
    capturePhase gs px py =
      (bset gs.board ((gs.selectedX + px).tdiv 2) ((gs.selectedY + py).tdiv 2)
        ({ bget gs.board ((gs.selectedX + px).tdiv 2) ((gs.selectedY + py).tdiv 2) with
            type := PieceType.NONE }), true, true, true) := by
  simp only [capturePhase]
  rw [if_pos (by simp [h1, h2]), if_neg (by simp [hk])]

lemma capturePhase_king (gs : GameState) (px py : Int) (dxv dyv : Int)
    (hk : (bget gs.board gs.selectedX gs.selectedY).isKing = true)
    (h1 : 1 < (gs.selectedX - px).natAbs) (h2 : 1 < (gs.selectedY - py).natAbs)
    (hdx : dxv = if px > gs.selectedX then 1 else -1)
    (hdy : dyv = if py > gs.selectedY then 1 else -1) :
    capturePhase gs px py =
      (if (kingCaptureScan gs.board gs.currentPlayer px py dxv dyv 16
            (gs.selectedX + dxv) (gs.selectedY + dyv)).2 = false then
        ((kingCaptureScan gs.board gs.currentPlayer px py dxv dyv 16
            (gs.selectedX + dxv) (gs.selectedY + dyv)).1, false, false, true)
      else
        ((kingCaptureScan gs.board gs.currentPlayer px py dxv dyv 16
            (gs.selectedX + dxv) (gs.selectedY + dyv)).1, true,
          additionalCapturePossible
            (kingCaptureScan gs.board gs.currentPlayer px py dxv dyv 16
              (gs.selectedX + dxv) (gs.selectedY + dyv)).1 gs.currentPlayer px py, true)) := by
  simp only [capturePhase]
  rw [if_pos (by simp [h1, h2]), if_pos hk, ← hdx, ← hdy]

lemma two_mul_tdiv_two (a : Int) : (a * 2).tdiv 2 = a :=
  Int.mul_tdiv_cancel a (by norm_num)

lemma midpoint_tdiv (sx dx0 : Int) : (sx + (sx + 2*dx0)).tdiv 2 = sx + dx0 := by
  rw [show sx + (sx + 2*dx0) = (sx + dx0) * 2 from by ring]
  exact two_mul_tdiv_two _

lemma betweens_spec (sx sy px py dx dy : Int) (m : Nat)
    (hdx : dx = 1 ∨ dx = -1) (hdy : dy = 1 ∨ dy = -1) (hm : 1 ≤ m)
    (hx : px = sx + (m:Int)*dx) (hy : py = sy + (m:Int)*dy) :
    betweens sx sy px py =
      (List.range (m - 1)).map (fun i : Nat => (sx + ((i:Int) + 1) * dx, sy + ((i:Int) + 1) * dy)) := by
  unfold betweens
  have h1 : (px - sx).natAbs = m := by
    subst hx
    rcases hdx with rfl | rfl <;> simp <;> omega
  have h2 : (if px > sx then (1:Int) else -1) = dx := by
    subst hx
    rcases hdx with rfl | rfl
    · rw [if_pos (by omega)]
    · rw [if_neg (by omega)]
  have h3 : (if py > sy then (1:Int) else -1) = dy := by
    subst hy
    rcases hdy with rfl | rfl
    · rw [if_pos (by omega)]
    · rw [if_neg (by omega)]
  rw [h1, h2, h3]

lemma jumpedCount_zero (b : Board) (sx sy px py dx dy : Int) (m : Nat)
    (hdx : dx = 1 ∨ dx = -1) (hdy : dy = 1 ∨ dy = -1) (hm : 1 ≤ m)
    (hx : px = sx + (m:Int)*dx) (hy : py = sy + (m:Int)*dy)
    (hemp : ∀ j : Nat, 1 ≤ j → j ≤ m - 1 →
      (bget b (sx + (j:Int)*dx) (sy + (j:Int)*dy)).type = PieceType.NONE) :
    jumpedCount b sx sy px py = 0 := by
  unfold jumpedCount
  rw [betweens_spec sx sy px py dx dy m hdx hdy hm hx hy]
  apply List.countP_eq_zero.mpr
  intro c hc
  simp only [List.mem_map, List.mem_range] at hc
  obtain ⟨i, hi, rfl⟩ := hc
  have e1 : sx + ((i:Int) + 1)*dx = sx + ((i+1 : Nat):Int)*dx := by push_cast; ring
  have e2 : sy + ((i:Int) + 1)*dy = sy + ((i+1 : Nat):Int)*dy := by push_cast; ring
  simp only [e1, e2, bne_iff_ne, ne_eq, not_not]
  exact hemp (i+1) (by omega) (by omega)

lemma jumpedCount_one (b : Board) (sx sy px py dx dy : Int) (e : Nat)
    (hdx : dx = 1 ∨ dx = -1) (hdy : dy = 1 ∨ dy = -1)
    (hx : px = sx + ((e:Int)+2)*dx) (hy : py = sy + ((e:Int)+2)*dy)
    (hemp : ∀ j : Nat, 1 ≤ j → j ≤ e →
      (bget b (sx + (j:Int)*dx) (sy + (j:Int)*dy)).type = PieceType.NONE)
    (hoccp : (bget b (sx + ((e:Int)+1)*dx) (sy + ((e:Int)+1)*dy)).type ≠ PieceType.NONE) :
    jumpedCount b sx sy px py = 1 := by
  unfold jumpedCount
  rw [betweens_spec sx sy px py dx dy (e+2) hdx hdy (by omega)
    (by rw [hx]; push_cast; ring) (by rw [hy]; push_cast; ring)]
  have hrange : e + 2 - 1 = e + 1 := by omega
  rw [hrange, List.range_succ, List.map_append, List.countP_append]
  have hz : ((List.range e).map
      (fun i : Nat => (sx + ((i:Int) + 1) * dx, sy + ((i:Int) + 1) * dy))).countP
        (fun c => (bget b c.1 c.2).type != PieceType.NONE) = 0 := by
    apply List.countP_eq_zero.mpr
    intro c hc
    simp only [List.mem_map, List.mem_range] at hc
    obtain ⟨i, hi, rfl⟩ := hc
    have e1 : sx + ((i:Int) + 1)*dx = sx + ((i+1 : Nat):Int)*dx := by push_cast; ring
    have e2 : sy + ((i:Int) + 1)*dy = sy + ((i+1 : Nat):Int)*dy := by push_cast; ring
    simp only [e1, e2, bne_iff_ne, ne_eq, not_not]
    exact hemp (i+1) (by omega) (by omega)
  rw [hz]
  simp only [List.map_cons, List.map_nil, List.countP_cons, List.countP_nil]
  rw [if_pos (by simpa using hoccp)]

lemma scoreOf_applyMove (gs : GameState) (px py : Int) :
    (scoreOf (applyMove gs px py) gs.currentPlayer =
      (if (capturePhase gs px py).2.1 then scoreOf gs gs.currentPlayer + 1
       else scoreOf gs gs.currentPlayer)) ∧
    scoreOf (applyMove gs px py) (otherPlayer gs.currentPlayer) =
      scoreOf gs (otherPlayer gs.currentPlayer) := by
  obtain ⟨h1, h2⟩ := applyMove_scores gs px py
  cases hc : gs.currentPlayer
  · rw [hc] at h1 h2
    constructor
    · simp only [scoreOf, h1]
      cases (capturePhase gs px py).2.1 <;> simp
    · simp only [otherPlayer, scoreOf, h2]
      cases (capturePhase gs px py).2.1 <;> simp
  · rw [hc] at h1 h2
    constructor
    · simp only [scoreOf, h2]
      cases (capturePhase gs px py).2.1 <;> simp
    · simp only [otherPlayer, scoreOf, h1]
      cases (capturePhase gs px py).2.1 <;> simp

lemma countPieces_applyMove (gs : GameState) (px py : Int)
    (hs : 0 ≤ gs.selectedX ∧ gs.selectedX < 8 ∧ 0 ≤ gs.selectedY ∧ gs.selectedY < 8)
    (hd : 0 ≤ px ∧ px < 8 ∧ 0 ≤ py ∧ py < 8)
    (hne : ¬(px = gs.selectedX ∧ py = gs.selectedY))
    (hocc1 : (bget (capturePhase gs px py).1 gs.selectedX gs.selectedY).type ≠ PieceType.NONE)
    (hdemp1 : (bget (capturePhase gs px py).1 px py).type = PieceType.NONE) :
    countPieces (applyMove gs px py).board = countPieces (capturePhase gs px py).1 := by
  rw [applyMove_board]
  rw [PromoteToKing_count _ px py (by
    show (bget (movedBoard (capturePhase gs px py).1 gs.selectedX gs.selectedY px py)
      px py).type ≠ PieceType.NONE
    rw [movedBoard_dest _ _ _ _ _ hd hne]
    exact hocc1)]
  exact movedBoard_count _ _ _ _ _ hs hd hne hocc1 hdemp1

lemma player_eq_other_of_ne {p q : Player} (h : p ≠ q) : p = otherPlayer q := by
  cases p <;> cases q <;> simp_all [otherPlayer]

lemma captureOutcome_left (gs : GameState) (px py : Int) (B : Board) (c d : Bool)
    (hcap : capturePhase gs px py = (B, true, c, d))
    (hcnt : countPieces (applyMove gs px py).board = countPieces B)
    (hB : countPieces B + 1 = countPieces gs.board)
    (hj : jumpedCount gs.board gs.selectedX gs.selectedY px py = 1)
    (hop : ∀ q ∈ betweens gs.selectedX gs.selectedY px py,
      (bget gs.board q.1 q.2).type ≠ PieceType.NONE →
      (bget gs.board q.1 q.2).player = otherPlayer gs.currentPlayer) :
    captureOutcome gs px py := by
  left
  obtain ⟨hsc1, hsc2⟩ := scoreOf_applyMove gs px py
  rw [hcap] at hsc1
  simp only [if_true] at hsc1
  exact ⟨hj, hop, by rw [hcnt]; exact hB, hsc1, hsc2⟩

lemma captureOutcome_right (gs : GameState) (px py : Int) (B : Board) (c d : Bool)
    (hcap : capturePhase gs px py = (B, false, c, d))
    (hcnt : countPieces (applyMove gs px py).board = countPieces B)
    (hB : countPieces B = countPieces gs.board)
    (hj : jumpedCount gs.board gs.selectedX gs.selectedY px py = 0) :
    captureOutcome gs px py := by
  right
  obtain ⟨hsc1, hsc2⟩ := scoreOf_applyMove gs px py
  rw [hcap] at hsc1
  simp only [if_false] at hsc1
  exact ⟨hj, by rw [hcnt]; exact hB, hsc1, hsc2⟩

lemma c4_man_case (gs : GameState) (ac : Bool) (px py : Int)
    (hin : inBounds gs.selectedX gs.selectedY = true)
    (hocc : (bget gs.board gs.selectedX gs.selectedY).type ≠ PieceType.NONE)
    (hpl : (bget gs.board gs.selectedX gs.selectedY).player = gs.currentPlayer)
    (hK : (bget gs.board gs.selectedX gs.selectedY).isKing = false)
    (hmem : Position.mk px py ∈ FindValidMoves gs.board gs.selectedX gs.selectedY ac) :
    captureOutcome gs px py ∧
      (ac = true → countPieces (applyMove gs px py).board + 1 = countPieces gs.board ∧
        scoreOf (applyMove gs px py) gs.currentPlayer = scoreOf gs gs.currentPlayer + 1) := by
  have hs := inBounds_iff.mp hin
  simp only [FindValidMoves, hK, Bool.false_eq_true, if_false] at hmem
  rw [mem_manMoves gs.board _ ac gs.selectedX gs.selectedY _
    (if (bget gs.board gs.selectedX gs.selectedY).player == Player.PLAYER1 then (1:Int) else -1)
    rfl] at hmem
  generalize hfdy : (if (bget gs.board gs.selectedX gs.selectedY).player == Player.PLAYER1
    then (1:Int) else -1) = fdy at hmem
  have hfdy1 : fdy = 1 ∨ fdy = -1 := by
    rw [← hfdy]; split
    · exact Or.inl rfl
    · exact Or.inr rfl
  obtain ⟨dx0, hdx0, hcase⟩ := hmem
  rcases hcase with ⟨hb, ht, hac, hpq⟩ | ⟨hb1, hb2, ht2, ht1, hp1, hpq⟩
  · -- adjacent simple move: nothing jumped, nothing removed
    have hpx : px = gs.selectedX + dx0 := congrArg Position.x hpq
    have hpy : py = gs.selectedY + fdy := congrArg Position.y hpq
    subst hpx; subst hpy
    have hcap := capturePhase_adjacent gs (gs.selectedX + dx0) (gs.selectedY + fdy)
      (by rcases hdx0 with rfl | rfl <;> simp <;> omega)
    have hd := inBounds_iff.mp hb
    have hne : ¬(gs.selectedX + dx0 = gs.selectedX ∧ gs.selectedY + fdy = gs.selectedY) := by
      rcases hdx0 with rfl | rfl <;> omega
    have hcnt := countPieces_applyMove gs _ _ hs hd hne
      (by rw [hcap]; exact hocc) (by rw [hcap]; exact ht)
    rw [hcap] at hcnt
    refine ⟨captureOutcome_right gs _ _ gs.board false gs.isCapturing hcap hcnt rfl
      (jumpedCount_zero gs.board _ _ _ _ dx0 fdy 1 hdx0 hfdy1 (le_refl 1)
        (by push_cast; ring) (by push_cast; ring)
        (fun j hj1 hj2 => by omega)), ?_⟩
    intro hactrue
    rw [hactrue] at hac
    cases hac
  · -- two-step jump capture: the midpoint opponent is removed
    have hpx : px = gs.selectedX + 2*dx0 := congrArg Position.x hpq
    have hpy : py = gs.selectedY + 2*fdy := congrArg Position.y hpq
    subst hpx; subst hpy
    have hcap := capturePhase_man gs (gs.selectedX + 2*dx0) (gs.selectedY + 2*fdy) hK
      (by rcases hdx0 with rfl | rfl <;> simp <;> omega)
      (by rcases hfdy1 with rfl | rfl <;> simp <;> omega)
    rw [midpoint_tdiv gs.selectedX dx0, midpoint_tdiv gs.selectedY fdy] at hcap
    have hmidb := inBounds_iff.mp hb1
    have hdb := inBounds_iff.mp hb2
    have hne : ¬(gs.selectedX + 2*dx0 = gs.selectedX ∧ gs.selectedY + 2*fdy = gs.selectedY) := by
      rcases hdx0 with rfl | rfl <;> omega
    have hnesrc : ¬(gs.selectedX = gs.selectedX + dx0 ∧ gs.selectedY = gs.selectedY + fdy) := by
      rcases hdx0 with rfl | rfl <;> omega
    have hnedst : ¬(gs.selectedX + 2*dx0 = gs.selectedX + dx0 ∧
        gs.selectedY + 2*fdy = gs.selectedY + fdy) := by
      rcases hdx0 with rfl | rfl <;> omega
    have hcnt := countPieces_applyMove gs _ _ hs hdb hne
      (by rw [hcap]; dsimp only; rw [bget_bset_ne _ _ hnesrc]; exact hocc)
      (by rw [hcap]; dsimp only; rw [bget_bset_ne _ _ hnedst]; exact ht2)
    rw [hcap] at hcnt
    have hB := countPieces_clear gs.board (by exact inBounds_iff.mp hb1) ht1
    refine ⟨captureOutcome_left gs _ _ _ true true hcap hcnt hB ?_ ?_, ?_⟩
    · exact jumpedCount_one gs.board _ _ _ _ dx0 fdy 0 hdx0 hfdy1
        (by push_cast; ring) (by push_cast; ring)
        (fun j hj1 hj2 => by omega)
        (by
          have e1 : gs.selectedX + ((0:Int)+1)*dx0 = gs.selectedX + dx0 := by ring
          have e2 : gs.selectedY + ((0:Int)+1)*fdy = gs.selectedY + fdy := by ring
          rw [show ((0:Nat):Int) = (0:Int) from rfl, e1, e2]
          exact ht1)
    · intro q hq hqocc
      rw [betweens_spec _ _ _ _ dx0 fdy 2 hdx0 hfdy1 (by omega)
        (by push_cast; ring) (by push_cast; ring)] at hq
      simp only [List.mem_map, List.mem_range] at hq
      obtain ⟨i, hi, rfl⟩ := hq
      have hi0 : i = 0 := by omega
      subst hi0
      have e1 : gs.selectedX + (((0:Nat):Int)+1)*dx0 = gs.selectedX + dx0 := by push_cast; ring
      have e2 : gs.selectedY + (((0:Nat):Int)+1)*fdy = gs.selectedY + fdy := by push_cast; ring
      dsimp only at hqocc ⊢
      rw [e1, e2]
      rw [← hpl]
      apply player_eq_other_of_ne
      exact hp1
    · intro hactrue
      obtain ⟨hsc1, -⟩ := scoreOf_applyMove gs (gs.selectedX + 2*dx0) (gs.selectedY + 2*fdy)
      rw [hcap] at hsc1
      simp only [if_true] at hsc1
      exact ⟨by rw [hcnt]; exact hB, hsc1⟩

lemma c4_king_case (gs : GameState) (ac : Bool) (px py : Int)
    (hin : inBounds gs.selectedX gs.selectedY = true)
    (hocc : (bget gs.board gs.selectedX gs.selectedY).type ≠ PieceType.NONE)
    (hpl : (bget gs.board gs.selectedX gs.selectedY).player = gs.currentPlayer)
    (hK : (bget gs.board gs.selectedX gs.selectedY).isKing = true)
    (hmem : Position.mk px py ∈ FindValidMoves gs.board gs.selectedX gs.selectedY ac) :
    captureOutcome gs px py ∧
      (ac = true → countPieces (applyMove gs px py).board + 1 = countPieces gs.board ∧
        scoreOf (applyMove gs px py) gs.currentPlayer = scoreOf gs gs.currentPlayer + 1) := by
  have hs := inBounds_iff.mp hin
  simp only [FindValidMoves, hK, if_true] at hmem
  obtain ⟨dx, dy, hdir, hcase⟩ := mem_kingMoves _ _ _ _ _ _ hmem
  obtain ⟨hdx1, hdy1⟩ : (dx = 1 ∨ dx = -1) ∧ (dy = 1 ∨ dy = -1) := by
    simp only [kingDirs, List.mem_cons, List.not_mem_nil, or_false, Prod.mk.injEq] at hdir
    rcases hdir with ⟨h1, h2⟩ | ⟨h1, h2⟩ | ⟨h1, h2⟩ | ⟨h1, h2⟩ <;> exact ⟨by omega, by omega⟩
  rcases hcase with ⟨hac, m, hm, hray, hpq⟩ | ⟨e, hray, hpq⟩
  · -- simple ray: every cell up to the landing is empty, nothing is jumped
    have hpx : px = gs.selectedX + (m:Int)*dx := congrArg Position.x hpq
    have hpy : py = gs.selectedY + (m:Int)*dy := congrArg Position.y hpq
    subst hpx; subst hpy
    obtain ⟨hbM, heM⟩ := hray m hm (le_refl m)
    have hdb := inBounds_iff.mp hbM
    have hne : ¬(gs.selectedX + (m:Int)*dx = gs.selectedX ∧
        gs.selectedY + (m:Int)*dy = gs.selectedY) := by
      rintro ⟨hA, -⟩
      rcases hdx1 with rfl | rfl <;> omega
    have hj := jumpedCount_zero gs.board _ _ _ _ dx dy m hdx1 hdy1 hm rfl rfl
      (fun j hj1 hj2 => (hray j hj1 (by omega)).2)
    by_cases hm1 : m = 1
    · subst hm1
      have hcap := capturePhase_adjacent gs (gs.selectedX + ((1:Nat):Int)*dx)
        (gs.selectedY + ((1:Nat):Int)*dy) (by
        rintro ⟨hA, -⟩
        rcases hdx1 with rfl | rfl <;> omega)
      have hcnt := countPieces_applyMove gs _ _ hs hdb hne
        (by rw [hcap]; exact hocc) (by rw [hcap]; exact heM)
      rw [hcap] at hcnt
      refine ⟨captureOutcome_right gs _ _ gs.board false gs.isCapturing hcap hcnt rfl hj, ?_⟩
      intro hactrue
      rw [hactrue] at hac
      cases hac
    · have hmge : 2 ≤ m := by omega
      have hmle : m ≤ 7 := by
        rcases hdx1 with rfl | rfl <;> omega
      have hdxv : (if gs.selectedX + (m:Int)*dx > gs.selectedX then (1:Int) else -1) = dx := by
        rcases hdx1 with rfl | rfl
        · rw [if_pos (by omega)]
        · rw [if_neg (by omega)]
      have hdyv : (if gs.selectedY + (m:Int)*dy > gs.selectedY then (1:Int) else -1) = dy := by
        rcases hdy1 with rfl | rfl
        · rw [if_pos (by omega)]
        · rw [if_neg (by omega)]
      have hcap := capturePhase_king gs (gs.selectedX + (m:Int)*dx)
        (gs.selectedY + (m:Int)*dy) dx dy hK
        (by rcases hdx1 with rfl | rfl <;> omega)
        (by rcases hdy1 with rfl | rfl <;> omega)
        hdxv.symm hdyv.symm
      have hcast : ((m - 1 : Nat) : Int) = (m : Int) - 1 := by omega
      have hscan := kingCaptureScan_allEmpty gs.board gs.currentPlayer
        (gs.selectedX + (m:Int)*dx) (gs.selectedY + (m:Int)*dy) dx dy (m-1) 16
        (gs.selectedX + dx) (gs.selectedY + dy) (by omega)
        (fun j hj => by
          constructor
          · rcases hdx1 with rfl | rfl <;> omega
          · rcases hdy1 with rfl | rfl <;> omega)
        (fun j hj => by
          have e1 : (gs.selectedX + dx) + (j:Int)*dx = gs.selectedX + ((j+1 : Nat):Int)*dx := by
            push_cast; ring
          have e2 : (gs.selectedY + dy) + (j:Int)*dy = gs.selectedY + ((j+1 : Nat):Int)*dy := by
            push_cast; ring
          rw [e1, e2]
          exact (hray (j+1) (by omega) (by omega)).2)
        (by
          left
          rw [hcast]
          ring)
      rw [hscan] at hcap
      rw [if_pos rfl] at hcap
      have hcnt := countPieces_applyMove gs _ _ hs hdb hne
        (by rw [hcap]; exact hocc) (by rw [hcap]; exact heM)
      rw [hcap] at hcnt
      refine ⟨captureOutcome_right gs _ _ gs.board false true hcap hcnt rfl hj, ?_⟩
      intro hactrue
      rw [hactrue] at hac
      cases hac
  · -- capture ray: exactly the one opponent piece before the landing is jumped
    have hpx : px = gs.selectedX + ((e:Int)+2)*dx := congrArg Position.x hpq
    have hpy : py = gs.selectedY + ((e:Int)+2)*dy := congrArg Position.y hpq
    subst hpx; subst hpy
    obtain ⟨hlead, hob, hot, hop1, hlb, hle⟩ := hray
    have hdb := inBounds_iff.mp hlb
    have hopb := inBounds_iff.mp hob
    have hele : e ≤ 5 := by
      rcases hdx1 with rfl | rfl <;> omega
    have hne : ¬(gs.selectedX + ((e:Int)+2)*dx = gs.selectedX ∧
        gs.selectedY + ((e:Int)+2)*dy = gs.selectedY) := by
      rintro ⟨hA, -⟩
      rcases hdx1 with rfl | rfl <;> omega
    have hdxv : (if gs.selectedX + ((e:Int)+2)*dx > gs.selectedX then (1:Int) else -1) = dx := by
      rcases hdx1 with rfl | rfl
      · rw [if_pos (by omega)]
      · rw [if_neg (by omega)]
    have hdyv : (if gs.selectedY + ((e:Int)+2)*dy > gs.selectedY then (1:Int) else -1) = dy := by
      rcases hdy1 with rfl | rfl
      · rw [if_pos (by omega)]
      · rw [if_neg (by omega)]
    have hcap := capturePhase_king gs (gs.selectedX + ((e:Int)+2)*dx)
      (gs.selectedY + ((e:Int)+2)*dy) dx dy hK
      (by rcases hdx1 with rfl | rfl <;> omega)
      (by rcases hdy1 with rfl | rfl <;> omega)
      hdxv.symm hdyv.symm
    have hscan := kingCaptureScan_find gs.board gs.currentPlayer
      (gs.selectedX + ((e:Int)+2)*dx) (gs.selectedY + ((e:Int)+2)*dy) dx dy e 16
      (gs.selectedX + dx) (gs.selectedY + dy) (by omega)
      (fun j hj => by
        have e1 : (gs.selectedX + dx) + (j:Int)*dx = gs.selectedX + ((j+1 : Nat):Int)*dx := by
          push_cast; ring
        have e2 : (gs.selectedY + dy) + (j:Int)*dy = gs.selectedY + ((j+1 : Nat):Int)*dy := by
          push_cast; ring
        rw [e1, e2]
        exact (hlead (j+1) (by omega) (by omega)).2)
      (fun j hj => by
        constructor
        · rcases hdx1 with rfl | rfl <;> omega
        · rcases hdy1 with rfl | rfl <;> omega)
      (by
        have e1 : (gs.selectedX + dx) + (e:Int)*dx = gs.selectedX + ((e:Int)+1)*dx := by ring
        have e2 : (gs.selectedY + dy) + (e:Int)*dy = gs.selectedY + ((e:Int)+1)*dy := by ring
        rw [e1, e2]
        exact hot)
      (by
        have e1 : (gs.selectedX + dx) + (e:Int)*dx = gs.selectedX + ((e:Int)+1)*dx := by ring
        have e2 : (gs.selectedY + dy) + (e:Int)*dy = gs.selectedY + ((e:Int)+1)*dy := by ring
        rw [e1, e2, ← hpl]
        exact hop1)
    have eC1 : (gs.selectedX + dx) + (e:Int)*dx = gs.selectedX + ((e:Int)+1)*dx := by ring
    have eC2 : (gs.selectedY + dy) + (e:Int)*dy = gs.selectedY + ((e:Int)+1)*dy := by ring
    rw [eC1, eC2] at hscan
    rw [hscan] at hcap
    rw [if_neg (by simp)] at hcap
    have hB := countPieces_clear gs.board hopb hot
    have hnesrc : ¬(gs.selectedX = gs.selectedX + ((e:Int)+1)*dx ∧
        gs.selectedY = gs.selectedY + ((e:Int)+1)*dy) := by
      rintro ⟨hA, -⟩
      rcases hdx1 with rfl | rfl <;> omega
    have hnedst : ¬(gs.selectedX + ((e:Int)+2)*dx = gs.selectedX + ((e:Int)+1)*dx ∧
        gs.selectedY + ((e:Int)+2)*dy = gs.selectedY + ((e:Int)+1)*dy) := by
      rintro ⟨hA, -⟩
      rcases hdx1 with rfl | rfl <;> omega
    have hcnt := countPieces_applyMove gs _ _ hs hdb hne
      (by rw [hcap]; dsimp only; rw [bget_bset_ne _ _ hnesrc]; exact hocc)
      (by rw [hcap]; dsimp only; rw [bget_bset_ne _ _ hnedst]; exact hle)
    rw [hcap] at hcnt
    refine ⟨captureOutcome_left gs _ _ _ _ _ hcap hcnt hB ?_ ?_, ?_⟩
    · exact jumpedCount_one gs.board _ _ _ _ dx dy e hdx1 hdy1 rfl rfl
        (fun j hj1 hj2 => (hlead j hj1 hj2).2) hot
    · intro q hq hqocc
      rw [betweens_spec _ _ _ _ dx dy (e+2) hdx1 hdy1 (by omega)
        (by push_cast; ring) (by push_cast; ring)] at hq
      simp only [List.mem_map, List.mem_range] at hq
      obtain ⟨i, hi, rfl⟩ := hq
      dsimp only at hqocc ⊢
      by_cases hie : i = e
      · subst hie
        have e1 : gs.selectedX + ((i:Int)+1)*dx = gs.selectedX + ((i:Int)+1)*dx := rfl
        rw [← hpl]
        exact player_eq_other_of_ne hop1
      · exfalso
        apply hqocc
        have e1 : gs.selectedX + ((i:Int)+1)*dx = gs.selectedX + ((i+1 : Nat):Int)*dx := by
          push_cast; ring
        have e2 : gs.selectedY + ((i:Int)+1)*dy = gs.selectedY + ((i+1 : Nat):Int)*dy := by
          push_cast; ring
        rw [e1, e2]
        exact (hlead (i+1) (by omega) (by omega)).2
    · intro hactrue
      obtain ⟨hsc1, -⟩ := scoreOf_applyMove gs (gs.selectedX + ((e:Int)+2)*dx)
        (gs.selectedY + ((e:Int)+2)*dy)
      rw [hcap] at hsc1
      simp only [if_true] at hsc1
      exact ⟨by rw [hcnt]; exact hB, hsc1⟩

/-- C4: applying any candidate destination for the selected piece of the
player to move either jumps exactly one piece — an opponent's — removing
exactly that one piece from the board (total count decreases by exactly 1)
and incrementing the mover's score by exactly 1 with the opponent's score
unchanged, or jumps nothing and changes neither the piece count nor any
score.  In particular no capture removes zero or more than one piece, and a
king's capture landing always corresponds to exactly one jumped opponent
piece on the scanned diagonal. -/
theorem c4_capture_removes_one (gs : GameState) (ac : Bool) (p : Position)
    (hin : inBounds gs.selectedX gs.selectedY = true)
    (hocc : (bget gs.board gs.selectedX gs.selectedY).type ≠ PieceType.NONE)
    (hpl : (bget gs.board gs.selectedX gs.selectedY).player = gs.currentPlayer)
    (hmem : p ∈ FindValidMoves gs.board gs.selectedX gs.selectedY ac) :
    captureOutcome gs p.x p.y := by
  obtain ⟨px, py⟩ := p
  cases hK : (bget gs.board gs.selectedX gs.selectedY).isKing
  · exact (c4_man_case gs ac px py hin hocc hpl hK hmem).1
  · exact (c4_king_case gs ac px py hin hocc hpl hK hmem).1

/-- C4 witness: the PLAYER1 man at (2,2) capturing to (4,4) over the
opponent at (3,3). -/
theorem c4_capture_removes_one_witness :
    (inBounds gsManCap.selectedX gsManCap.selectedY = true ∧
      (bget gsManCap.board gsManCap.selectedX gsManCap.selectedY).type ≠ PieceType.NONE ∧
      (bget gsManCap.board gsManCap.selectedX gsManCap.selectedY).player =
        gsManCap.currentPlayer ∧
      Position.mk 4 4 ∈ FindValidMoves gsManCap.board gsManCap.selectedX gsManCap.selectedY
        false) ∧
    captureOutcome gsManCap 4 4 :=
  ⟨⟨by decide, by decide, by decide, by decide⟩,
    c4_capture_removes_one gsManCap false ⟨4, 4⟩ (by decide) (by decide) (by decide)
      (by decide)⟩

/-! ### C6: promotion forces the end of the turn -/

lemma movedBoard_src_isKing (b1 : Board) (sx sy x y : Int) :
    (bget (movedBoard b1 sx sy x y) sx sy).isKing = (bget b1 sx sy).isKing := by
  unfold movedBoard
  by_cases hb : 0 ≤ sx ∧ sx < 8 ∧ 0 ≤ sy ∧ sy < 8
  · rw [bget_bset_same _ _ hb]
    dsimp only
    by_cases hc : sx = x ∧ sy = y
    · obtain ⟨rfl, rfl⟩ := hc
      rw [bget_bset_same _ _ hb]
    · rw [bget_bset_ne _ _ hc]
  · rw [bset_oob_eq _ _ hb]
    by_cases hc : sx = x ∧ sy = y
    · obtain ⟨rfl, rfl⟩ := hc
      rw [bset_oob_eq _ _ hb]
    · rw [bget_bset_ne _ _ hc]

lemma PromoteToKing_dest_isKing (gs : GameState) (x y : Int) (hx : 0 ≤ x ∧ x < 8)
    (hpromo : (gs.currentPlayer = Player.PLAYER1 ∧ y = 7) ∨
      (gs.currentPlayer = Player.PLAYER2 ∧ y = 0)) :
    (bget (PromoteToKing gs x y).board x y).isKing = true := by
  unfold PromoteToKing
  rcases hpromo with ⟨hc, rfl⟩ | ⟨hc, rfl⟩
  · rw [hc]
    rw [if_pos (by simp)]
    rw [bget_bset_same _ _ ⟨hx.1, hx.2, by omega, by omega⟩]
  · rw [hc]
    rw [if_neg (by simp), if_pos (by simp)]
    rw [bget_bset_same _ _ ⟨hx.1, hx.2, by omega, by omega⟩]

/-- C6: when the moving piece was not a king and lands on the current
player's far row (so it is promoted), the turn ends immediately: the
selection is cleared, the candidate list is emptied, the capture-chain flag
is reset and the current player is switched — regardless of any further
captures available from the promotion square. -/
theorem c6_promotion_ends_turn (gs : GameState) (x y : Int)
    (hK : (bget gs.board gs.selectedX gs.selectedY).isKing = false)
    (hx : 0 ≤ x ∧ x < 8)
    (hpromo : (gs.currentPlayer = Player.PLAYER1 ∧ y = 7) ∨
      (gs.currentPlayer = Player.PLAYER2 ∧ y = 0)) :
    (applyMove gs x y).pieceSelected = false ∧
    (applyMove gs x y).validMoves = [] ∧
    (applyMove gs x y).isCapturing = false ∧
    (applyMove gs x y).currentPlayer = otherPlayer gs.currentPlayer := by
  have hwas : (bget (movedBoard (capturePhase gs x y).1 gs.selectedX gs.selectedY x y)
      gs.selectedX gs.selectedY).isKing = false := by
    rw [movedBoard_src_isKing]
    rw [(capturePhase_typeOnly gs x y _ _).2]
    exact hK
  simp only [applyMove]
  rw [hwas, PromoteToKing_dest_isKing]
  · simp only [Bool.not_false, Bool.true_and, if_true]
    refine ⟨rfl, rfl, rfl, ?_⟩
    simp only [SwitchTurn]
    rw [(PromoteToKing_proj _ _ _).1]
  · exact hx
  · exact hpromo

/-- C6 witness: the PLAYER1 man at (2,6) moving to (3,7) is crowned and the
turn ends at once. -/
theorem c6_promotion_ends_turn_witness :
    ((bget gsPromo.board gsPromo.selectedX gsPromo.selectedY).isKing = false ∧
      ((0:Int) ≤ 3 ∧ (3:Int) < 8) ∧
      (gsPromo.currentPlayer = Player.PLAYER1 ∧ (7:Int) = 7)) ∧
    ((applyMove gsPromo 3 7).pieceSelected = false ∧
      (applyMove gsPromo 3 7).validMoves = [] ∧
      (applyMove gsPromo 3 7).isCapturing = false ∧
      (applyMove gsPromo 3 7).currentPlayer = otherPlayer gsPromo.currentPlayer) :=
  ⟨⟨by decide, ⟨by decide, by decide⟩, ⟨by decide, rfl⟩⟩,
    c6_promotion_ends_turn gsPromo 3 7 (by decide) ⟨by decide, by decide⟩
      (Or.inl ⟨by decide, rfl⟩)⟩

/-! ### C10: clearing cells touches only the `type` field -/

lemma capturePhase_board_shape (gs : GameState) (x y : Int) :
    (capturePhase gs x y).1 = gs.board ∨
    ∃ u v : Int, (capturePhase gs x y).1 =
      bset gs.board u v ({ bget gs.board u v with type := PieceType.NONE }) := by
  simp only [capturePhase]
  generalize (if x > gs.selectedX then (1:Int) else -1) = dx0
  generalize (if y > gs.selectedY then (1:Int) else -1) = dy0
  split_ifs with h1 h2 h3
  · rcases kingCaptureScan_shape gs.board gs.currentPlayer x y dx0 dy0 16
        (gs.selectedX + dx0) (gs.selectedY + dy0) with hs | ⟨u, v, -, -, hs⟩
    · rw [hs]
      exact Or.inl rfl
    · rw [hs]
      exact Or.inr ⟨u, v, rfl⟩
  · rcases kingCaptureScan_shape gs.board gs.currentPlayer x y dx0 dy0 16
        (gs.selectedX + dx0) (gs.selectedY + dy0) with hs | ⟨u, v, -, -, hs⟩
    · rw [hs]
      exact Or.inl rfl
    · rw [hs]
      exact Or.inr ⟨u, v, rfl⟩
  · exact Or.inr ⟨(gs.selectedX + x).tdiv 2, (gs.selectedY + y).tdiv 2, rfl⟩
  · exact Or.inl rfl

/-- C10: applying a move clears cells by writing only the `type` field: the
vacated source cell keeps its previous `player` and `isKing` values with
`type = NONE`, and any other cell the application changed (i.e. a captured
cell) likewise only has its `type` reset to NONE, retaining the stale owner
and rank data for later reads to observe. -/
theorem c10_clear_type_only (gs : GameState) (x y : Int)
    (hs : inBounds gs.selectedX gs.selectedY = true)
    (hne : ¬(x = gs.selectedX ∧ y = gs.selectedY)) :
    (bget (applyMove gs x y).board gs.selectedX gs.selectedY =
      { bget gs.board gs.selectedX gs.selectedY with type := PieceType.NONE }) ∧
    (∀ cx cy : Int, ¬(cx = gs.selectedX ∧ cy = gs.selectedY) → ¬(cx = x ∧ cy = y) →
      bget (applyMove gs x y).board cx cy ≠ bget gs.board cx cy →
      bget (applyMove gs x y).board cx cy =
        { bget gs.board cx cy with type := PieceType.NONE }) := by
  have hsb := inBounds_iff.mp hs
  rw [applyMove_board]
  constructor
  · rw [PromoteToKing_frame _ x y _ _ (by tauto)]
    show bget (movedBoard (capturePhase gs x y).1 gs.selectedX gs.selectedY x y)
      gs.selectedX gs.selectedY = _
    unfold movedBoard
    rw [bget_bset_same _ _ hsb]
    dsimp only
    rw [bget_bset_ne _ _ (show ¬(gs.selectedX = x ∧ gs.selectedY = y) from
      fun hc => hne ⟨hc.1.symm, hc.2.symm⟩)]
    obtain ⟨hp, hk⟩ := capturePhase_typeOnly gs x y gs.selectedX gs.selectedY
    rw [hp, hk]
  · intro cx cy hc1 hc2 hchanged
    rw [PromoteToKing_frame _ x y _ _ hc2] at hchanged ⊢
    show bget (movedBoard (capturePhase gs x y).1 gs.selectedX gs.selectedY x y) cx cy = _
    rw [movedBoard_frame _ _ _ _ _ _ _ hc1 hc2]
    rw [movedBoard_frame _ _ _ _ _ _ _ hc1 hc2] at hchanged
    rcases capturePhase_board_shape gs x y with hb | ⟨u, v, hb⟩
    · rw [hb] at hchanged
      exact absurd rfl hchanged
    · rw [hb] at hchanged ⊢
      by_cases hcu : cx = u ∧ cy = v
      · obtain ⟨rfl, rfl⟩ := hcu
        by_cases hub : 0 ≤ cx ∧ cx < 8 ∧ 0 ≤ cy ∧ cy < 8
        · rw [bget_bset_same _ _ hub]
        · rw [bset_oob_eq _ _ hub] at hchanged
          exact absurd rfl hchanged
      · rw [bget_bset_ne _ _ hcu] at hchanged
        exact absurd rfl hchanged

/-- C10 witness: the man capture from (2,2) to (4,4): the vacated source and
the captured cell (3,3) both keep their player and king fields, only their
`type` becomes NONE. -/
theorem c10_clear_type_only_witness :
    (inBounds gsManCap.selectedX gsManCap.selectedY = true ∧
      ¬((4:Int) = gsManCap.selectedX ∧ (4:Int) = gsManCap.selectedY)) ∧
    (bget (applyMove gsManCap 4 4).board gsManCap.selectedX gsManCap.selectedY =
      { bget gsManCap.board gsManCap.selectedX gsManCap.selectedY with
          type := PieceType.NONE }) ∧
    (∀ cx cy : Int, ¬(cx = gsManCap.selectedX ∧ cy = gsManCap.selectedY) →
      ¬(cx = 4 ∧ cy = 4) →
      bget (applyMove gsManCap 4 4).board cx cy ≠ bget gsManCap.board cx cy →
      bget (applyMove gsManCap 4 4).board cx cy =
        { bget gsManCap.board cx cy with type := PieceType.NONE }) :=
  ⟨⟨by decide, by decide⟩,
    c10_clear_type_only gsManCap 4 4 (by decide) (by decide)⟩

/-! ### C7: the capture-chain invariant -/

lemma isValidMove_mem (gs : GameState) (x y : Int) :
    IsValidMove gs x y = true ↔ Position.mk x y ∈ gs.validMoves := by
  unfold IsValidMove
  rw [List.any_eq_true]
  constructor
  · rintro ⟨m, hm, hme⟩
    simp only [Bool.and_eq_true, beq_iff_eq] at hme
    obtain ⟨h1, h2⟩ := hme
    have : m = Position.mk x y := by
      cases m
      simp only [Position.mk.injEq]
      exact ⟨h1, h2⟩
    exact this ▸ hm
  · intro hm
    exact ⟨⟨x, y⟩, hm, by simp⟩

/-- C7: while a capture sequence is in progress (the chain flag is set, the
chaining piece is selected, and the candidate list is the piece's
`afterCapture = true` regeneration), every click is either ignored with no
state change at all, or it moves the chaining piece to one of its listed
destinations — and every such destination captures another opponent piece:
the piece count drops by one and the mover's score rises by one.  No simple
move is ever applied and no other piece can be selected. -/
theorem c7_chain_only_captures (gs : GameState) (x y : Int)
    (hsel : gs.pieceSelected = true)
    (hchain : gs.isCapturing = true)
    (hvm : gs.validMoves = FindValidMoves gs.board gs.selectedX gs.selectedY true)
    (hin : inBounds gs.selectedX gs.selectedY = true)
    (hocc : (bget gs.board gs.selectedX gs.selectedY).type ≠ PieceType.NONE)
    (hpl : (bget gs.board gs.selectedX gs.selectedY).player = gs.currentPlayer) :
    HandleInput gs x y = gs ∨
    (Position.mk x y ∈ gs.validMoves ∧
      HandleInput gs x y = applyMove gs x y ∧
      countPieces (applyMove gs x y).board + 1 = countPieces gs.board ∧
      scoreOf (applyMove gs x y) gs.currentPlayer = scoreOf gs gs.currentPlayer + 1) := by
  have hstep : HandleInput gs x y =
      (if IsValidMove gs x y then applyMove gs x y
       else if gs.isCapturing then gs
       else { gs with pieceSelected := false, validMoves := [] }) := by
    unfold HandleInput
    rw [if_neg (by rw [hsel]; exact fun h => Bool.noConfusion h)]
    rw [if_neg (by rw [hchain]; simp)]
  by_cases hval : IsValidMove gs x y = true
  · right
    have hmem : Position.mk x y ∈ gs.validMoves := (isValidMove_mem gs x y).mp hval
    have hmemF : Position.mk x y ∈
        FindValidMoves gs.board gs.selectedX gs.selectedY true := by
      rw [← hvm]; exact hmem
    have heq : HandleInput gs x y = applyMove gs x y := by
      rw [hstep, if_pos hval]
    refine ⟨hmem, heq, ?_⟩
    cases hK : (bget gs.board gs.selectedX gs.selectedY).isKing
    · exact (c4_man_case gs true x y hin hocc hpl hK hmemF).2 rfl
    · exact (c4_king_case gs true x y hin hocc hpl hK hmemF).2 rfl
  · left
    rw [hstep, if_neg hval, if_pos hchain]

/-- C7 witness: in the chain state `gsChain`, the click (6,6) continues the
chain by capturing the piece at (5,5); by the same theorem a click on an
arbitrary other cell, e.g. (0,0), is ignored (established by the first
disjunct at that input). -/
theorem c7_chain_only_captures_witness :
    (gsChain.pieceSelected = true ∧ gsChain.isCapturing = true ∧
      gsChain.validMoves =
        FindValidMoves gsChain.board gsChain.selectedX gsChain.selectedY true ∧
      inBounds gsChain.selectedX gsChain.selectedY = true ∧
      (bget gsChain.board gsChain.selectedX gsChain.selectedY).type ≠ PieceType.NONE ∧
      (bget gsChain.board gsChain.selectedX gsChain.selectedY).player =
        gsChain.currentPlayer) ∧
    (HandleInput gsChain 6 6 = gsChain ∨
      (Position.mk 6 6 ∈ gsChain.validMoves ∧
        HandleInput gsChain 6 6 = applyMove gsChain 6 6 ∧
        countPieces (applyMove gsChain 6 6).board + 1 = countPieces gsChain.board ∧
        scoreOf (applyMove gsChain 6 6) gsChain.currentPlayer =
          scoreOf gsChain gsChain.currentPlayer + 1)) :=
  ⟨⟨rfl, rfl, rfl, by decide, by decide, by decide⟩,
    c7_chain_only_captures gsChain 6 6 rfl rfl rfl (by decide) (by decide) (by decide)⟩

/-! ### C3: the terminal-state evaluation -/

/-- One diagonal direction of the mobility comparison: the code's pair
(simple-move disjunct, capture disjunct that omits the type test on the
jumped cell) is equivalent to the spec's pair (simple-move disjunct with
full bounds, capture disjunct requiring the jumped cell occupied): a code
capture whose jumped cell is in fact empty is absorbed by the simple-move
disjunct, whose bounds follow from the capture's bounds. -/
lemma dirEquiv (b : Board) (pl op : Player) (ax ay lx ly : Int)
    {B1 B2 C1 C2 : Prop}
    (hop : ∀ q : Player, q = op ↔ ¬ q = pl)
    (hB : (0 ≤ ax ∧ ax < 8 ∧ 0 ≤ ay ∧ ay < 8) ↔ (B1 ∧ B2))
    (hC : (0 ≤ lx ∧ lx < 8 ∧ 0 ≤ ly ∧ ly < 8) ↔ (C1 ∧ C2))
    (h1 : C1 → B1) (h2 : C2 → B2) :
    (((B1 ∧ B2) ∧ (bget b ax ay).type = PieceType.NONE) ∨
     (((C1 ∧ C2) ∧ (bget b ax ay).player = op) ∧ (bget b lx ly).type = PieceType.NONE))
    ↔ (((0 ≤ ax ∧ ax < 8 ∧ 0 ≤ ay ∧ ay < 8) ∧ (bget b ax ay).type = PieceType.NONE) ∨
       (((0 ≤ lx ∧ lx < 8 ∧ 0 ≤ ly ∧ ly < 8) ∧
         ((¬(bget b ax ay).type = PieceType.NONE) ∧ ¬(bget b ax ay).player = pl)) ∧
        (bget b lx ly).type = PieceType.NONE)) := by
  constructor
  · rintro (⟨⟨hb1, hb2⟩, he⟩ | ⟨⟨⟨hc1, hc2⟩, hp⟩, hl⟩)
    · exact Or.inl ⟨hB.mpr ⟨hb1, hb2⟩, he⟩
    · by_cases he : (bget b ax ay).type = PieceType.NONE
      · exact Or.inl ⟨hB.mpr ⟨h1 hc1, h2 hc2⟩, he⟩
      · exact Or.inr ⟨⟨hC.mpr ⟨hc1, hc2⟩, he, (hop _).mp hp⟩, hl⟩
  · rintro (⟨hb, he⟩ | ⟨⟨hc, ht, hq⟩, hl⟩)
    · exact Or.inl ⟨hB.mp hb, he⟩
    · exact Or.inr ⟨⟨hC.mp hc, (hop _).mpr hq⟩, hl⟩

/-- Regrouping of the two-direction (man) disjunctions: the code lists all
simple moves, then all captures; the spec interleaves them per direction. -/
lemma regroup2 (m1 m2 c1 c2 m1a m2a c1a c2a : Prop)
    (h1 : m1 ∨ c1 ↔ m1a ∨ c1a) (h2 : m2 ∨ c2 ↔ m2a ∨ c2a) :
    ((m1 ∨ m2) ∨ (c1 ∨ c2)) ↔ (((m1a ∨ m2a) ∨ c1a) ∨ c2a) := by
  itauto

/-- Regrouping of the four-direction (king) disjunctions. -/
lemma regroup4 (m1 m2 m3 m4 c1 c2 c3 c4 m1a m2a m3a m4a c1a c2a c3a c4a : Prop)
    (h1 : m1 ∨ c1 ↔ m1a ∨ c1a) (h2 : m2 ∨ c2 ↔ m2a ∨ c2a)
    (h3 : m3 ∨ c3 ↔ m3a ∨ c3a) (h4 : m4 ∨ c4 ↔ m4a ∨ c4a) :
    ((((m1 ∨ m2) ∨ m3) ∨ m4) ∨ (((c1 ∨ c2) ∨ c3) ∨ c4)) ↔
      ((((m1a ∨ m2a) ∨ m3a) ∨ m4a) ∨ (((c1a ∨ c2a) ∨ c3a) ∨ c4a)) := by
  itauto

/-- For every in-bounds cell, the code's PLAYER1 per-piece mobility test
agrees with the spec's: the code's missing occupancy test on jumped cells
is absorbed by the simple-move disjuncts. -/
lemma p1_cell_eq (b : Board) (x y : Int) (h : 0 ≤ x ∧ x < 8 ∧ 0 ≤ y ∧ y < 8) :
    p1HasMovesAt b x y = specPieceHasMove b Player.PLAYER1 x y := by
  obtain ⟨hx0, hx8, hy0, hy8⟩ := h
  have hop : ∀ q : Player, q = Player.PLAYER2 ↔ ¬ q = Player.PLAYER1 := by
    intro q; cases q <;> simp
  have d1 := dirEquiv b Player.PLAYER1 Player.PLAYER2 (x+1) (y+1) (x+2) (y+2) hop
    ((by omega : (0 ≤ x+1 ∧ x+1 < 8 ∧ 0 ≤ y+1 ∧ y+1 < 8) ↔ ((y+1 < 8) ∧ (x+1 < 8))))
    ((by omega : (0 ≤ x+2 ∧ x+2 < 8 ∧ 0 ≤ y+2 ∧ y+2 < 8) ↔ ((y+2 < 8) ∧ (x+2 < 8))))
    (by omega) (by omega)
  have d2 := dirEquiv b Player.PLAYER1 Player.PLAYER2 (x-1) (y+1) (x-2) (y+2) hop
    ((by omega : (0 ≤ x-1 ∧ x-1 < 8 ∧ 0 ≤ y+1 ∧ y+1 < 8) ↔ ((y+1 < 8) ∧ (0 ≤ x-1))))
    ((by omega : (0 ≤ x-2 ∧ x-2 < 8 ∧ 0 ≤ y+2 ∧ y+2 < 8) ↔ ((y+2 < 8) ∧ (0 ≤ x-2))))
    (by omega) (by omega)
  have d3 := dirEquiv b Player.PLAYER1 Player.PLAYER2 (x+1) (y-1) (x+2) (y-2) hop
    ((by omega : (0 ≤ x+1 ∧ x+1 < 8 ∧ 0 ≤ y-1 ∧ y-1 < 8) ↔ ((0 ≤ y-1) ∧ (x+1 < 8))))
    ((by omega : (0 ≤ x+2 ∧ x+2 < 8 ∧ 0 ≤ y-2 ∧ y-2 < 8) ↔ ((0 ≤ y-2) ∧ (x+2 < 8))))
    (by omega) (by omega)
  have d4 := dirEquiv b Player.PLAYER1 Player.PLAYER2 (x-1) (y-1) (x-2) (y-2) hop
    ((by omega : (0 ≤ x-1 ∧ x-1 < 8 ∧ 0 ≤ y-1 ∧ y-1 < 8) ↔ ((0 ≤ y-1) ∧ (0 ≤ x-1))))
    ((by omega : (0 ≤ x-2 ∧ x-2 < 8 ∧ 0 ≤ y-2 ∧ y-2 < 8) ↔ ((0 ≤ y-2) ∧ (0 ≤ x-2))))
    (by omega) (by omega)
  rw [Bool.eq_iff_iff]
  by_cases hk : (bget b x y).type = PieceType.KING <;>
    simp only [p1HasMovesAt, specPieceHasMove, specOpponentAt, hk, if_true, if_false,
      beq_self_eq_true, beq_iff_eq, bne_iff_ne, ne_eq, Bool.or_eq_true, Bool.and_eq_true,
      decide_eq_true_eq, inBounds_iff, reduceIte, mul_one, Bool.false_eq_true, or_false]
  · exact or_congr (regroup2 _ _ _ _ _ _ _ _ d1 d2)
      (regroup4 _ _ _ _ _ _ _ _ _ _ _ _ _ _ _ _ d1 d2 d3 d4)
  · exact regroup2 _ _ _ _ _ _ _ _ d1 d2

/-- For every in-bounds cell, the code's PLAYER2 per-piece mobility test
agrees with the spec's. -/
lemma p2_cell_eq (b : Board) (x y : Int) (h : 0 ≤ x ∧ x < 8 ∧ 0 ≤ y ∧ y < 8) :
    p2HasMovesAt b x y = specPieceHasMove b Player.PLAYER2 x y := by
  obtain ⟨hx0, hx8, hy0, hy8⟩ := h
  have hop : ∀ q : Player, q = Player.PLAYER1 ↔ ¬ q = Player.PLAYER2 := by
    intro q; cases q <;> simp
  have d1 := dirEquiv b Player.PLAYER2 Player.PLAYER1 (x+1) (y-1) (x+2) (y-2) hop
    ((by omega : (0 ≤ x+1 ∧ x+1 < 8 ∧ 0 ≤ y-1 ∧ y-1 < 8) ↔ ((0 ≤ y-1) ∧ (x+1 < 8))))
    ((by omega : (0 ≤ x+2 ∧ x+2 < 8 ∧ 0 ≤ y-2 ∧ y-2 < 8) ↔ ((0 ≤ y-2) ∧ (x+2 < 8))))
    (by omega) (by omega)
  have d2 := dirEquiv b Player.PLAYER2 Player.PLAYER1 (x-1) (y-1) (x-2) (y-2) hop
    ((by omega : (0 ≤ x-1 ∧ x-1 < 8 ∧ 0 ≤ y-1 ∧ y-1 < 8) ↔ ((0 ≤ y-1) ∧ (0 ≤ x-1))))
    ((by omega : (0 ≤ x-2 ∧ x-2 < 8 ∧ 0 ≤ y-2 ∧ y-2 < 8) ↔ ((0 ≤ y-2) ∧ (0 ≤ x-2))))
    (by omega) (by omega)
  have d3 := dirEquiv b Player.PLAYER2 Player.PLAYER1 (x+1) (y+1) (x+2) (y+2) hop
    ((by omega : (0 ≤ x+1 ∧ x+1 < 8 ∧ 0 ≤ y+1 ∧ y+1 < 8) ↔ ((y+1 < 8) ∧ (x+1 < 8))))
    ((by omega : (0 ≤ x+2 ∧ x+2 < 8 ∧ 0 ≤ y+2 ∧ y+2 < 8) ↔ ((y+2 < 8) ∧ (x+2 < 8))))
    (by omega) (by omega)
  have d4 := dirEquiv b Player.PLAYER2 Player.PLAYER1 (x-1) (y+1) (x-2) (y+2) hop
    ((by omega : (0 ≤ x-1 ∧ x-1 < 8 ∧ 0 ≤ y+1 ∧ y+1 < 8) ↔ ((y+1 < 8) ∧ (0 ≤ x-1))))
    ((by omega : (0 ≤ x-2 ∧ x-2 < 8 ∧ 0 ≤ y+2 ∧ y+2 < 8) ↔ ((y+2 < 8) ∧ (0 ≤ x-2))))
    (by omega) (by omega)
  have e1 : y + (-1 : Int) = y - 1 := by ring
  have e2 : y + 2 * (-1 : Int) = y - 2 := by ring
  rw [Bool.eq_iff_iff]
  by_cases hk : (bget b x y).type = PieceType.KING <;>
    simp only [p2HasMovesAt, specPieceHasMove, specOpponentAt, hk, if_true, if_false,
      beq_self_eq_true, beq_iff_eq, bne_iff_ne, ne_eq, Bool.or_eq_true, Bool.and_eq_true,
      decide_eq_true_eq, inBounds_iff, reduceIte, mul_one, e1, e2, Bool.false_eq_true,
      or_false]
  · exact or_congr (regroup2 _ _ _ _ _ _ _ _ d1 d2)
      (regroup4 _ _ _ _ _ _ _ _ _ _ _ _ _ _ _ _ d3 d4 d1 d2)
  · exact regroup2 _ _ _ _ _ _ _ _ d1 d2

/-- The code's PLAYER1 mobility flag agrees with the spec's board scan. -/
lemma flag_eq_p1 (b : Board) :
    (allCellsI.any (fun c =>
      ((bget b c.1 c.2).type != PieceType.NONE) && ((bget b c.1 c.2).player == Player.PLAYER1) &&
      p1HasMovesAt b c.1 c.2)) =
    (allCellsI.any (fun c =>
      ((bget b c.1 c.2).type != PieceType.NONE) && ((bget b c.1 c.2).player == Player.PLAYER1) &&
      specPieceHasMove b Player.PLAYER1 c.1 c.2)) := by
  rw [Bool.eq_iff_iff, List.any_eq_true, List.any_eq_true]
  constructor
  · rintro ⟨c, hc, hcond⟩
    refine ⟨c, hc, ?_⟩
    rw [← p1_cell_eq b c.1 c.2 (mem_allCellsI.mp hc)]
    exact hcond
  · rintro ⟨c, hc, hcond⟩
    refine ⟨c, hc, ?_⟩
    rw [p1_cell_eq b c.1 c.2 (mem_allCellsI.mp hc)]
    exact hcond

/-- The code's PLAYER2 mobility flag agrees with the spec's board scan. -/
lemma flag_eq_p2 (b : Board) :
    (allCellsI.any (fun c =>
      ((bget b c.1 c.2).type != PieceType.NONE) && ((bget b c.1 c.2).player == Player.PLAYER2) &&
      p2HasMovesAt b c.1 c.2)) =
    (allCellsI.any (fun c =>
      ((bget b c.1 c.2).type != PieceType.NONE) && ((bget b c.1 c.2).player == Player.PLAYER2) &&
      specPieceHasMove b Player.PLAYER2 c.1 c.2)) := by
  rw [Bool.eq_iff_iff, List.any_eq_true, List.any_eq_true]
  constructor
  · rintro ⟨c, hc, hcond⟩
    refine ⟨c, hc, ?_⟩
    rw [← p2_cell_eq b c.1 c.2 (mem_allCellsI.mp hc)]
    exact hcond
  · rintro ⟨c, hc, hcond⟩
    refine ⟨c, hc, ?_⟩
    rw [p2_cell_eq b c.1 c.2 (mem_allCellsI.mp hc)]
    exact hcond

/-- C3: for every board and player to move, the terminal-state evaluation
`CheckGameOver` agrees with the spec's evaluator: elimination is checked
before immobility (a player with zero pieces loses), then, if no piece of
the player to move has any legal move or capture (men: adjacent forward
move or forward jump-capture; kings: move or capture in any diagonal
direction), the opponent wins; otherwise the game is ongoing. -/
theorem c3_terminal_evaluation (b : Board) (current : Player) :
    CheckGameOver b current = specEvaluate b current := by
  cases current
  · simp only [CheckGameOver, specEvaluate, flag_eq_p1 b, otherPlayer]
    simp only [show (Player.PLAYER1 == Player.PLAYER1) = true from rfl,
      show (Player.PLAYER1 == Player.PLAYER2) = false from rfl,
      Bool.true_and, Bool.false_and, Bool.false_eq_true, if_false]
  · simp only [CheckGameOver, specEvaluate, flag_eq_p2 b, otherPlayer]
    simp only [show (Player.PLAYER2 == Player.PLAYER2) = true from rfl,
      show (Player.PLAYER2 == Player.PLAYER1) = false from rfl,
      Bool.true_and, Bool.false_and, Bool.false_eq_true, if_false]

end Checkers
